import Mathlib

/-!
# Verification of the VS Code IPC protocol engine (vs/base/parts/ipc/node/ipc.ts)

This file gives a shallow embedding of the IPC protocol engine found in the
repository (frame codec, channel-server engine, channel-client engine and the
multi-client `IPCServer`), and settles a list of claims about it.

Modelling conventions:
* A byte buffer (`Buffer`) is a `List Nat` of byte values.
* A JavaScript string is a `List Nat` of Unicode scalar values (code points);
  `lit` converts a Lean string literal for concrete examples.
* `JSON.stringify` / `JSON.parse` are platform primitives (not repository
  code); they are implemented here concretely over the inductive `JValue`
  universe of JSON-serializable values, together with `Buffer.from(string)` /
  `buffer.toString()` (UTF-8 encode/decode).
* Fallible JavaScript code (a thrown exception) is modelled with
  `Except Unit`.
-/

namespace IpcModel

/-- Code points of a Lean string literal; used to write concrete JavaScript
strings in examples. -/
def lit (s : String) : List Nat := s.data.map Char.toNat

/-! ## UTF-8 (model of `Buffer.from(string)` and `buffer.toString()`) -/

/-- UTF-8 encoding of a single code point (model of the encoding performed by
`Buffer.from(string)`). -/
def utf8EncodeChar (n : Nat) : List Nat :=
  if n < 0x80 then [n]
  else if n < 0x800 then [0xC0 + n / 64, 0x80 + n % 64]
  else if n < 0x10000 then [0xE0 + n / 4096, 0x80 + (n / 64) % 64, 0x80 + n % 64]
  else [0xF0 + n / 0x40000, 0x80 + (n / 4096) % 64, 0x80 + (n / 64) % 64, 0x80 + n % 64]

/-- UTF-8 encoding of a string, i.e. `Buffer.from(s)`. -/
def utf8Encode (s : List Nat) : List Nat :=
  s.flatMap utf8EncodeChar

mutual

/-- UTF-8 decoding worker (fuel-indexed; fuel bounds the number of decoded
code points, one byte at least is consumed per unit of fuel). -/
def utf8DecodeF : Nat → List Nat → Option (List Nat)
  | _, [] => some []
  | 0, _ :: _ => none
  | f + 1, b :: bs =>
    if b < 0x80 then (utf8DecodeF f bs).map (b :: ·)
    else if b < 0xC0 then none
    else if b < 0xE0 then utf8Cont1 f b bs
    else if b < 0xF0 then utf8Cont2 f b bs
    else if b < 0xF8 then utf8Cont3 f b bs
    else none

/-- Decode the single continuation byte of a 2-byte UTF-8 sequence. -/
def utf8Cont1 (f b : Nat) : List Nat → Option (List Nat)
  | b1 :: bs' =>
    if 0x80 ≤ b1 ∧ b1 < 0xC0 then
      (utf8DecodeF f bs').map (((b - 0xC0) * 64 + (b1 - 0x80)) :: ·)
    else none
  | _ => none

/-- Decode the two continuation bytes of a 3-byte UTF-8 sequence. -/
def utf8Cont2 (f b : Nat) : List Nat → Option (List Nat)
  | b1 :: b2 :: bs' =>
    if (0x80 ≤ b1 ∧ b1 < 0xC0) ∧ (0x80 ≤ b2 ∧ b2 < 0xC0) then
      (utf8DecodeF f bs').map
        (((b - 0xE0) * 4096 + (b1 - 0x80) * 64 + (b2 - 0x80)) :: ·)
    else none
  | _ => none

/-- Decode the three continuation bytes of a 4-byte UTF-8 sequence. -/
def utf8Cont3 (f b : Nat) : List Nat → Option (List Nat)
  | b1 :: b2 :: b3 :: bs' =>
    if (0x80 ≤ b1 ∧ b1 < 0xC0) ∧ (0x80 ≤ b2 ∧ b2 < 0xC0) ∧ (0x80 ≤ b3 ∧ b3 < 0xC0) then
      (utf8DecodeF f bs').map
        (((b - 0xF0) * 0x40000 + (b1 - 0x80) * 4096 + (b2 - 0x80) * 64 + (b3 - 0x80)) :: ·)
    else none
  | _ => none

end

/-- UTF-8 decoding, i.e. `buffer.toString()`. Real `toString` replaces invalid
sequences with U+FFFD instead of failing; the lossy repair is not modelled
(no claim depends on it), so invalid input yields `none`. -/
def utf8Decode (bs : List Nat) : Option (List Nat) :=
  utf8DecodeF (bs.length + 1) bs

/-- A valid code point (below the Unicode upper bound). -/
def cpOK (n : Nat) : Bool := n < 0x110000

theorem utf8_roundtrip_char {s : List Nat} (n : Nat) (h : cpOK n = true)
    (rest : List Nat) (f : Nat) (ih : utf8DecodeF f rest = some s) :
    utf8DecodeF (f + 1) (utf8EncodeChar n ++ rest) = some (n :: s) := by
  simp only [cpOK, decide_eq_true_eq] at h
  unfold utf8EncodeChar
  by_cases h1 : n < 0x80
  · simp only [if_pos h1, List.cons_append, List.nil_append]
    rw [utf8DecodeF]
    simp [if_pos h1, ih]
  · by_cases h2 : n < 0x800
    · simp only [if_neg h1, if_pos h2, List.cons_append, List.nil_append]
      rw [utf8DecodeF]
      have hb : ¬ (0xC0 + n / 64 < 0x80) := by omega
      have hb2 : ¬ (0xC0 + n / 64 < 0xC0) := by omega
      have hb3 : 0xC0 + n / 64 < 0xE0 := by omega
      simp only [if_neg hb, if_neg hb2, if_pos hb3]
      rw [utf8Cont1]
      have hc : 0x80 ≤ 0x80 + n % 64 ∧ 0x80 + n % 64 < 0xC0 := by omega
      simp only [if_pos hc, ih]
      have : (0xC0 + n / 64 - 0xC0) * 64 + (0x80 + n % 64 - 0x80) = n := by omega
      rw [this]
      rfl
    · by_cases h3 : n < 0x10000
      · simp only [if_neg h1, if_neg h2, if_pos h3, List.cons_append, List.nil_append]
        rw [utf8DecodeF]
        have hb : ¬ (0xE0 + n / 4096 < 0x80) := by omega
        have hb2 : ¬ (0xE0 + n / 4096 < 0xC0) := by omega
        have hb3 : ¬ (0xE0 + n / 4096 < 0xE0) := by omega
        have hb4 : 0xE0 + n / 4096 < 0xF0 := by omega
        simp only [if_neg hb, if_neg hb2, if_neg hb3, if_pos hb4]
        rw [utf8Cont2]
        have hc : (0x80 ≤ 0x80 + n / 64 % 64 ∧ 0x80 + n / 64 % 64 < 0xC0) ∧
            (0x80 ≤ 0x80 + n % 64 ∧ 0x80 + n % 64 < 0xC0) := by omega
        simp only [if_pos hc, ih]
        have : (0xE0 + n / 4096 - 0xE0) * 4096 + (0x80 + n / 64 % 64 - 0x80) * 64 +
            (0x80 + n % 64 - 0x80) = n := by omega
        rw [this]
        rfl
      · simp only [if_neg h1, if_neg h2, if_neg h3, List.cons_append, List.nil_append]
        rw [utf8DecodeF]
        have hb : ¬ (0xF0 + n / 0x40000 < 0x80) := by omega
        have hb2 : ¬ (0xF0 + n / 0x40000 < 0xC0) := by omega
        have hb3 : ¬ (0xF0 + n / 0x40000 < 0xE0) := by omega
        have hb4 : ¬ (0xF0 + n / 0x40000 < 0xF0) := by omega
        have hb5 : 0xF0 + n / 0x40000 < 0xF8 := by omega
        simp only [if_neg hb, if_neg hb2, if_neg hb3, if_neg hb4, if_pos hb5]
        rw [utf8Cont3]
        have hc : (0x80 ≤ 0x80 + n / 4096 % 64 ∧ 0x80 + n / 4096 % 64 < 0xC0) ∧
            (0x80 ≤ 0x80 + n / 64 % 64 ∧ 0x80 + n / 64 % 64 < 0xC0) ∧
            (0x80 ≤ 0x80 + n % 64 ∧ 0x80 + n % 64 < 0xC0) := by omega
        simp only [if_pos hc, ih]
        have : (0xF0 + n / 0x40000 - 0xF0) * 0x40000 + (0x80 + n / 4096 % 64 - 0x80) * 4096 +
            (0x80 + n / 64 % 64 - 0x80) * 64 + (0x80 + n % 64 - 0x80) = n := by omega
        rw [this]
        rfl

theorem utf8DecodeF_nil (f : Nat) : utf8DecodeF f [] = some [] := by
  cases f <;> rfl

theorem utf8_roundtripF (s : List Nat) (h : s.all cpOK = true) (k : Nat) :
    utf8DecodeF (s.length + k + 1) (utf8Encode s) = some s := by
  induction s generalizing k with
  | nil => exact utf8DecodeF_nil _
  | cons c cs ih =>
    simp only [List.all_cons, Bool.and_eq_true] at h
    have hfix : (c :: cs).length + k + 1 = (cs.length + k + 1) + 1 := by
      simp [List.length_cons]; omega
    rw [hfix]
    simpa [utf8Encode] using
      utf8_roundtrip_char c h.1 (utf8Encode cs) (cs.length + k + 1) (ih h.2 k)

theorem utf8EncodeChar_ne_nil (n : Nat) : utf8EncodeChar n ≠ [] := by
  unfold utf8EncodeChar
  split <;> try simp
  split <;> try simp
  split <;> simp

theorem length_le_utf8Encode (s : List Nat) : s.length ≤ (utf8Encode s).length := by
  induction s with
  | nil => simp [utf8Encode]
  | cons c cs ih =>
    have h1 : 1 ≤ (utf8EncodeChar c).length :=
      Nat.one_le_iff_ne_zero.mpr (by
        simpa [List.length_eq_zero] using utf8EncodeChar_ne_nil c)
    simp only [utf8Encode, List.flatMap_cons, List.length_append, List.length_cons]
    simp only [utf8Encode] at ih
    omega

/-- UTF-8 round trip: decoding an encoded string of valid code points yields
the string back. -/
theorem utf8_roundtrip (s : List Nat) (h : s.all cpOK = true) :
    utf8Decode (utf8Encode s) = some s := by
  have hlen := length_le_utf8Encode s
  have : (utf8Encode s).length + 1 = s.length + ((utf8Encode s).length - s.length) + 1 := by
    omega
  rw [utf8Decode, this]
  exact utf8_roundtripF s h _

/-! ## JSON values (the universe of JSON-serializable JavaScript values)

`JSON.stringify` / `JSON.parse` are platform primitives used by the codec in
`ipc.ts`; they are modelled concretely below.  Numbers are modelled as
integers (the wire headers only carry integral type tags, ids and strings;
IEEE floating point is outside the modelled universe). -/

inductive JValue where
  | null
  | bool (b : Bool)
  | num (n : Int)
  | str (s : List Nat)
  | arr (elems : List JValue)
  | obj (fields : List (List Nat × JValue))

/-! ### Decimal numerals -/

def natDecAux : Nat → Nat → List Nat
  | 0, _ => []
  | f + 1, n => if n < 10 then [48 + n] else natDecAux f (n / 10) ++ [48 + n % 10]

/-- Decimal digits of a natural number (code points `'0'..'9'`). -/
def natDec (n : Nat) : List Nat := natDecAux (n + 1) n

/-- `String(n)` for an integer, as produced by `JSON.stringify`. -/
def intDec (n : Int) : List Nat :=
  if n < 0 then 45 :: natDec n.natAbs else natDec n.toNat

def isDigitCp (c : Nat) : Bool := decide (48 ≤ c ∧ c < 58)

def digitsVal (ds : List Nat) : Nat := ds.foldl (fun a d => a * 10 + (d - 48)) 0

/-! ### String escaping (ECMA-262 QuoteJSONString) -/

def hexDig (d : Nat) : Nat := if d < 10 then 48 + d else 87 + d

/-- Escape of one code point inside a JSON string literal: `"` and `\` are
escaped, the control characters use the two-character shorthands or
`\u00XX`; everything else is emitted verbatim. -/
def escChar (c : Nat) : List Nat :=
  if c = 34 then [92, 34]
  else if c = 92 then [92, 92]
  else if c = 8 then [92, 98]
  else if c = 9 then [92, 116]
  else if c = 10 then [92, 110]
  else if c = 12 then [92, 102]
  else if c = 13 then [92, 114]
  else if c < 32 then [92, 117, 48, 48, hexDig (c / 16), hexDig (c % 16)]
  else [c]

def escStr (s : List Nat) : List Nat := s.flatMap escChar

/-- A JSON string literal: `"` + escaped contents + `"`. -/
def quoteStr (s : List Nat) : List Nat := 34 :: (escStr s ++ [34])

/-! ### `JSON.stringify` -/

mutual

/-- Model of `JSON.stringify` (no whitespace, fields in insertion order). -/
def stringifyV : JValue → List Nat
  | .null => [110, 117, 108, 108]
  | .bool true => [116, 114, 117, 101]
  | .bool false => [102, 97, 108, 115, 101]
  | .num n => intDec n
  | .str s => quoteStr s
  | .arr [] => [91, 93]
  | .arr (v :: vs) => 91 :: (stringifyV v ++ (stringifyElems vs ++ [93]))
  | .obj [] => [123, 125]
  | .obj ((k, v) :: fs) =>
    123 :: (quoteStr k ++ (58 :: (stringifyV v ++ (stringifyFields fs ++ [125]))))

/-- Remaining array elements, each preceded by `,`. -/
def stringifyElems : List JValue → List Nat
  | [] => []
  | v :: vs => 44 :: (stringifyV v ++ stringifyElems vs)

/-- Remaining object fields, each preceded by `,`. -/
def stringifyFields : List (List Nat × JValue) → List Nat
  | [] => []
  | (k, v) :: fs => 44 :: (quoteStr k ++ (58 :: (stringifyV v ++ stringifyFields fs)))

end

/-! ### `JSON.parse`

A recursive-descent parser over code points, fuel-indexed so that it is
structurally recursive (one unit of fuel is spent per consumed character,
so `length + 1` fuel always suffices).  The parser is lenient in ways
`JSON.parse` is strict (whitespace is not skipped because `stringify` never
emits it; fractional/exponent number syntax and the surrogate-pair rules
are outside the modelled universe); no claim depends on the difference. -/

def hexVal (c : Nat) : Option Nat :=
  if 48 ≤ c ∧ c < 58 then some (c - 48)
  else if 97 ≤ c ∧ c < 103 then some (c - 87)
  else if 65 ≤ c ∧ c < 71 then some (c - 55)
  else none

/-- Longest digit prefix and the remainder. -/
def takeDigits : List Nat → List Nat × List Nat
  | [] => ([], [])
  | c :: cs =>
    if isDigitCp c then
      let p := takeDigits cs
      (c :: p.1, p.2)
    else ([], c :: cs)

/-- Parse a nonempty run of digits as a natural number. -/
def pNum (cs : List Nat) : Option (Nat × List Nat) :=
  match takeDigits cs with
  | ([], _) => none
  | (ds, r) => some (digitsVal ds, r)

/-- Expect a literal keyword suffix (`ull`, `rue`, `alse`). -/
def stripPfx : List Nat → List Nat → Option (List Nat)
  | [], cs => some cs
  | p :: ps, c :: cs => if c = p then stripPfx ps cs else none
  | _ :: _, [] => none

mutual

/-- Parse one JSON value. -/
def pVal : Nat → List Nat → Option (JValue × List Nat)
  | 0, _ => none
  | _ + 1, [] => none
  | f + 1, c :: r =>
    if c = 110 then (stripPfx [117, 108, 108] r).map (fun r' => (.null, r'))
    else if c = 116 then (stripPfx [114, 117, 101] r).map (fun r' => (.bool true, r'))
    else if c = 102 then (stripPfx [97, 108, 115, 101] r).map (fun r' => (.bool false, r'))
    else if c = 34 then (pStr f r).map (fun p => (.str p.1, p.2))
    else if c = 91 then pArr f r
    else if c = 123 then pObj f r
    else if c = 45 then (pNum r).map (fun p => (.num (-(p.1 : Int)), p.2))
    else if isDigitCp c then (pNum (c :: r)).map (fun p => (.num (p.1 : Int), p.2))
    else none

/-- Parse the contents of an array, right after `[`. -/
def pArr : Nat → List Nat → Option (JValue × List Nat)
  | 0, _ => none
  | _ + 1, [] => none
  | f + 1, c :: r =>
    if c = 93 then some (.arr [], r)
    else
      (pVal f (c :: r)).bind fun p =>
        (pElems f p.2).map fun q => (.arr (p.1 :: q.1), q.2)

/-- Parse `, value`* `]` after an array element. -/
def pElems : Nat → List Nat → Option (List JValue × List Nat)
  | 0, _ => none
  | _ + 1, [] => none
  | f + 1, c :: r =>
    if c = 93 then some ([], r)
    else if c = 44 then
      (pVal f r).bind fun p =>
        (pElems f p.2).map fun q => (p.1 :: q.1, q.2)
    else none

/-- Parse the contents of an object, right after `{`. -/
def pObj : Nat → List Nat → Option (JValue × List Nat)
  | 0, _ => none
  | _ + 1, [] => none
  | f + 1, c :: r =>
    if c = 125 then some (.obj [], r)
    else if c = 34 then
      (pStr f r).bind fun kp =>
        (pColonVal f kp.2).bind fun p =>
          (pFields f p.2).map fun q => (.obj ((kp.1, p.1) :: q.1), q.2)
    else none

/-- Parse `: value` after an object key. -/
def pColonVal : Nat → List Nat → Option (JValue × List Nat)
  | 0, _ => none
  | _ + 1, [] => none
  | f + 1, c :: r => if c = 58 then pVal f r else none

/-- Parse a quoted object key. -/
def pQKey : Nat → List Nat → Option (List Nat × List Nat)
  | 0, _ => none
  | _ + 1, [] => none
  | f + 1, c :: r => if c = 34 then pStr f r else none

/-- Parse `, "key": value`* `}` after an object field. -/
def pFields : Nat → List Nat → Option (List (List Nat × JValue) × List Nat)
  | 0, _ => none
  | _ + 1, [] => none
  | f + 1, c :: r =>
    if c = 125 then some ([], r)
    else if c = 44 then
      (pQKey f r).bind fun kp =>
        (pColonVal f kp.2).bind fun p =>
          (pFields f p.2).map fun q => ((kp.1, p.1) :: q.1, q.2)
    else none

/-- Parse the contents of a string literal, right after `"`. -/
def pStr : Nat → List Nat → Option (List Nat × List Nat)
  | 0, _ => none
  | _ + 1, [] => none
  | f + 1, c :: r =>
    if c = 34 then some ([], r)
    else if c = 92 then pEsc f r
    else (pStr f r).map fun p => (c :: p.1, p.2)

/-- Parse one escape sequence, right after `\`. -/
def pEsc : Nat → List Nat → Option (List Nat × List Nat)
  | 0, _ => none
  | _ + 1, [] => none
  | f + 1, e :: r =>
    if e = 34 then (pStr f r).map fun p => (34 :: p.1, p.2)
    else if e = 92 then (pStr f r).map fun p => (92 :: p.1, p.2)
    else if e = 47 then (pStr f r).map fun p => (47 :: p.1, p.2)
    else if e = 98 then (pStr f r).map fun p => (8 :: p.1, p.2)
    else if e = 102 then (pStr f r).map fun p => (12 :: p.1, p.2)
    else if e = 110 then (pStr f r).map fun p => (10 :: p.1, p.2)
    else if e = 114 then (pStr f r).map fun p => (13 :: p.1, p.2)
    else if e = 116 then (pStr f r).map fun p => (9 :: p.1, p.2)
    else if e = 117 then pHex f r
    else none

/-- Parse the four hex digits of a `\uXXXX` escape. -/
def pHex : Nat → List Nat → Option (List Nat × List Nat)
  | 0, _ => none
  | f + 1, h1 :: h2 :: h3 :: h4 :: r =>
    match hexVal h1, hexVal h2, hexVal h3, hexVal h4 with
    | some d1, some d2, some d3, some d4 =>
      (pStr f r).map fun p => ((((d1 * 16 + d2) * 16 + d3) * 16 + d4) :: p.1, p.2)
    | _, _, _, _ => none
  | _ + 1, _ => none

end

/-- Model of `JSON.parse`: parse one value consuming the entire input;
anything else throws (returns `none`). -/
def jsonParse (cs : List Nat) : Option JValue :=
  match pVal (cs.length + 1) cs with
  | some (v, []) => some v
  | _ => none

/-! ### Parse/stringify round trip -/

/-- The remainder after a number must not begin with a digit (in stringify
output a value is always followed by `,`, `]`, `}` or the end). -/
def numBoundary : List Nat → Bool
  | [] => true
  | c :: _ => !(isDigitCp c)

theorem digitsVal_append_last (xs : List Nat) (d : Nat) :
    digitsVal (xs ++ [d]) = digitsVal xs * 10 + (d - 48) := by
  simp [digitsVal, List.foldl_append]

theorem natDecAux_spec (f : Nat) : ∀ n, n < f →
    (natDecAux f n).all isDigitCp = true ∧ natDecAux f n ≠ [] ∧
      digitsVal (natDecAux f n) = n := by
  induction f with
  | zero => intro n hn; omega
  | succ f ih =>
    intro n hn
    rw [natDecAux]
    by_cases h10 : n < 10
    · simp only [if_pos h10]
      refine ⟨?_, by simp, ?_⟩
      · simp [isDigitCp]; omega
      · simp [digitsVal]
    · simp only [if_neg h10]
      have hrec := ih (n / 10) (by omega)
      refine ⟨?_, by simp, ?_⟩
      · simp only [List.all_append, Bool.and_eq_true, hrec.1, true_and, List.all_cons,
          List.all_nil, Bool.and_true, isDigitCp]
        simp; omega
      · rw [digitsVal_append_last, hrec.2.2]
        omega

theorem natDec_all_digits (n : Nat) : (natDec n).all isDigitCp = true :=
  (natDecAux_spec (n + 1) n (by omega)).1

theorem natDec_ne_nil (n : Nat) : natDec n ≠ [] :=
  (natDecAux_spec (n + 1) n (by omega)).2.1

theorem digitsVal_natDec (n : Nat) : digitsVal (natDec n) = n :=
  (natDecAux_spec (n + 1) n (by omega)).2.2

theorem takeDigits_of_boundary (r : List Nat) (hr : numBoundary r = true) :
    takeDigits r = ([], r) := by
  cases r with
  | nil => rfl
  | cons c cs =>
    simp only [numBoundary, Bool.not_eq_true'] at hr
    simp [takeDigits, hr]

theorem takeDigits_append (ds r : List Nat) (hds : ds.all isDigitCp = true)
    (hr : numBoundary r = true) : takeDigits (ds ++ r) = (ds, r) := by
  induction ds with
  | nil => simpa using takeDigits_of_boundary r hr
  | cons d ds ih =>
    simp only [List.all_cons, Bool.and_eq_true] at hds
    simp [takeDigits, hds.1, ih hds.2]

theorem pNum_rt (n : Nat) (r : List Nat) (hr : numBoundary r = true) :
    pNum (natDec n ++ r) = some (n, r) := by
  rw [pNum, takeDigits_append _ _ (natDec_all_digits n) hr]
  obtain ⟨d, ds, hd⟩ : ∃ d ds, natDec n = d :: ds := by
    cases h : natDec n with
    | nil => exact absurd h (natDec_ne_nil n)
    | cons d ds => exact ⟨d, ds, rfl⟩
  rw [hd]
  have := digitsVal_natDec n
  rw [hd] at this
  simp [this]

/-- One shorthand escape step of the string parser. -/
theorem pStr_escStep {s r : List Nat} (r' : List Nat) (h2 : Nat) (e d : Nat)
    (htab : pEsc (h2 + 1) (e :: r') = (pStr h2 r').map fun p => (d :: p.1, p.2))
    (hrec : pStr h2 r' = some (s, r)) :
    pStr (h2 + 1 + 1) (92 :: (e :: r')) = some (d :: s, r) := by
  rw [pStr]
  norm_num
  rw [htab, hrec]
  rfl

theorem pStr_rt (s : List Nat) : ∀ (r : List Nat) (F : Nat),
    (escStr s).length + 1 ≤ F →
    pStr F (escStr s ++ (34 :: r)) = some (s, r) := by
  induction s with
  | nil =>
    intro r F hF
    obtain ⟨h, rfl⟩ : ∃ h, F = h + 1 := ⟨F - 1, by omega⟩
    simp [escStr, pStr]
  | cons c s ih =>
    intro r F hF
    have hesc : escStr (c :: s) = escChar c ++ escStr s := by simp [escStr]
    rw [hesc] at hF ⊢
    by_cases h34 : c = 34
    · subst h34
      rw [show escChar 34 = [92, 34] from rfl] at hF ⊢
      simp only [List.length_append, List.length_cons, List.length_nil] at hF
      obtain ⟨h2, rfl⟩ : ∃ h2, F = h2 + 1 + 1 := ⟨F - 2, by omega⟩
      simp only [List.cons_append, List.nil_append]
      exact pStr_escStep _ h2 34 34 rfl (ih r h2 (by omega))
    · by_cases h92 : c = 92
      · subst h92
        rw [show escChar 92 = [92, 92] from rfl] at hF ⊢
        simp only [List.length_append, List.length_cons, List.length_nil] at hF
        obtain ⟨h2, rfl⟩ : ∃ h2, F = h2 + 1 + 1 := ⟨F - 2, by omega⟩
        simp only [List.cons_append, List.nil_append]
        exact pStr_escStep _ h2 92 92 rfl (ih r h2 (by omega))
      · by_cases h8 : c = 8
        · subst h8
          rw [show escChar 8 = [92, 98] from rfl] at hF ⊢
          simp only [List.length_append, List.length_cons, List.length_nil] at hF
          obtain ⟨h2, rfl⟩ : ∃ h2, F = h2 + 1 + 1 := ⟨F - 2, by omega⟩
          simp only [List.cons_append, List.nil_append]
          exact pStr_escStep _ h2 98 8 rfl (ih r h2 (by omega))
        · by_cases h9 : c = 9
          · subst h9
            rw [show escChar 9 = [92, 116] from rfl] at hF ⊢
            simp only [List.length_append, List.length_cons, List.length_nil] at hF
            obtain ⟨h2, rfl⟩ : ∃ h2, F = h2 + 1 + 1 := ⟨F - 2, by omega⟩
            simp only [List.cons_append, List.nil_append]
            exact pStr_escStep _ h2 116 9 rfl (ih r h2 (by omega))
          · by_cases h10 : c = 10
            · subst h10
              rw [show escChar 10 = [92, 110] from rfl] at hF ⊢
              simp only [List.length_append, List.length_cons, List.length_nil] at hF
              obtain ⟨h2, rfl⟩ : ∃ h2, F = h2 + 1 + 1 := ⟨F - 2, by omega⟩
              simp only [List.cons_append, List.nil_append]
              exact pStr_escStep _ h2 110 10 rfl (ih r h2 (by omega))
            · by_cases h12 : c = 12
              · subst h12
                rw [show escChar 12 = [92, 102] from rfl] at hF ⊢
                simp only [List.length_append, List.length_cons, List.length_nil] at hF
                obtain ⟨h2, rfl⟩ : ∃ h2, F = h2 + 1 + 1 := ⟨F - 2, by omega⟩
                simp only [List.cons_append, List.nil_append]
                exact pStr_escStep _ h2 102 12 rfl (ih r h2 (by omega))
              · by_cases h13 : c = 13
                · subst h13
                  rw [show escChar 13 = [92, 114] from rfl] at hF ⊢
                  simp only [List.length_append, List.length_cons, List.length_nil] at hF
                  obtain ⟨h2, rfl⟩ : ∃ h2, F = h2 + 1 + 1 := ⟨F - 2, by omega⟩
                  simp only [List.cons_append, List.nil_append]
                  exact pStr_escStep _ h2 114 13 rfl (ih r h2 (by omega))
                · by_cases hctl : c < 32
                  · have hech : escChar c =
                        [92, 117, 48, 48, hexDig (c / 16), hexDig (c % 16)] := by
                      unfold escChar
                      rw [if_neg h34, if_neg h92, if_neg h8, if_neg h9, if_neg h10,
                        if_neg h12, if_neg h13, if_pos hctl]
                    rw [hech] at hF ⊢
                    simp only [List.length_append, List.length_cons, List.length_nil] at hF
                    obtain ⟨h2, rfl⟩ : ∃ h2, F = h2 + 1 + 1 + 1 := ⟨F - 3, by omega⟩
                    simp only [List.cons_append, List.nil_append]
                    rw [pStr]
                    norm_num
                    rw [pEsc]
                    norm_num
                    rw [pHex]
                    have hx2 : hexVal (hexDig (c / 16)) = some (c / 16) := by
                      unfold hexVal hexDig
                      have h1 : c / 16 < 10 := by omega
                      rw [if_pos h1, if_pos (by omega : 48 ≤ 48 + c / 16 ∧ 48 + c / 16 < 58)]
                      congr 1
                      omega
                    have hx3 : hexVal (hexDig (c % 16)) = some (c % 16) := by
                      unfold hexVal hexDig
                      by_cases hlt : c % 16 < 10
                      · rw [if_pos hlt, if_pos (by omega : 48 ≤ 48 + c % 16 ∧ 48 + c % 16 < 58)]
                        congr 1
                        omega
                      · have hm : c % 16 < 16 := Nat.mod_lt c (by omega)
                        rw [if_neg hlt,
                          if_neg (by omega : ¬ (48 ≤ 87 + c % 16 ∧ 87 + c % 16 < 58)),
                          if_pos (by omega : 97 ≤ 87 + c % 16 ∧ 87 + c % 16 < 103)]
                        congr 1
                        omega
                    rw [show hexVal 48 = some 0 from rfl, hx2, hx3]
                    rw [ih r h2 (by omega)]
                    simp only [Option.map_some]
                    have : ((0 * 16 + 0) * 16 + c / 16) * 16 + c % 16 = c := by omega
                    rw [this]
                    rfl
                  · have hech : escChar c = [c] := by
                      unfold escChar
                      rw [if_neg h34, if_neg h92, if_neg h8, if_neg h9, if_neg h10,
                        if_neg h12, if_neg h13, if_neg hctl]
                    rw [hech] at hF ⊢
                    simp only [List.length_append, List.length_cons, List.length_nil] at hF
                    obtain ⟨h2, rfl⟩ : ∃ h2, F = h2 + 1 := ⟨F - 1, by omega⟩
                    simp only [List.cons_append, List.nil_append]
                    rw [pStr, if_neg h34, if_neg h92, ih r h2 (by omega)]
                    rfl

theorem natDec_head (n : Nat) : ∃ d ds, natDec n = d :: ds ∧ 48 ≤ d ∧ d < 58 := by
  cases h : natDec n with
  | nil => exact absurd h (natDec_ne_nil n)
  | cons d ds =>
    refine ⟨d, ds, rfl, ?_⟩
    have hall := natDec_all_digits n
    rw [h] at hall
    simp only [List.all_cons, Bool.and_eq_true, isDigitCp, decide_eq_true_eq] at hall
    exact hall.1

/-- The first character of stringify output is never `]` (needed to show the
array parser does not mistake an element for the end of the array). -/
theorem stringify_head (v : JValue) : ∃ c t, stringifyV v = c :: t ∧ c ≠ 93 := by
  cases v with
  | null => exact ⟨110, _, rfl, by omega⟩
  | bool b => cases b with
    | true => exact ⟨116, _, rfl, by omega⟩
    | false => exact ⟨102, _, rfl, by omega⟩
  | num n =>
    rw [show stringifyV (.num n) = intDec n from rfl]
    unfold intDec
    by_cases hneg : n < 0
    · rw [if_pos hneg]
      exact ⟨45, _, rfl, by omega⟩
    · rw [if_neg hneg]
      obtain ⟨d, ds, hd, h1, h2⟩ := natDec_head n.toNat
      exact ⟨d, ds, hd, by omega⟩
  | str s => exact ⟨34, _, rfl, by omega⟩
  | arr es => cases es with
    | nil => exact ⟨91, _, rfl, by omega⟩
    | cons v vs => exact ⟨91, _, rfl, by omega⟩
  | obj fs => cases fs with
    | nil => exact ⟨123, _, rfl, by omega⟩
    | cons f fs =>
      obtain ⟨k, kv⟩ := f
      exact ⟨123, _, rfl, by omega⟩

theorem numBoundary_elems (vs : List JValue) (r : List Nat) :
    numBoundary (stringifyElems vs ++ (93 :: r)) = true := by
  cases vs with
  | nil => rfl
  | cons v vs => rfl

theorem numBoundary_fields (fs : List (List Nat × JValue)) (r : List Nat) :
    numBoundary (stringifyFields fs ++ (125 :: r)) = true := by
  cases fs with
  | nil => rfl
  | cons f fs => obtain ⟨k, v⟩ := f; rfl

mutual

theorem pVal_rt : ∀ (v : JValue) (r : List Nat) (F : Nat),
    numBoundary r = true → (stringifyV v).length ≤ F →
    pVal F (stringifyV v ++ r) = some (v, r)
  | .null, r, F, hb, hF => by
    rw [show stringifyV .null = [110, 117, 108, 108] from rfl] at hF ⊢
    simp only [List.length_cons, List.length_nil] at hF
    obtain ⟨g, rfl⟩ : ∃ g, F = g + 1 := ⟨F - 1, by omega⟩
    simp only [List.cons_append, List.nil_append]
    rw [pVal]
    norm_num [stripPfx]
  | .bool true, r, F, hb, hF => by
    rw [show stringifyV (.bool true) = [116, 114, 117, 101] from rfl] at hF ⊢
    simp only [List.length_cons, List.length_nil] at hF
    obtain ⟨g, rfl⟩ : ∃ g, F = g + 1 := ⟨F - 1, by omega⟩
    simp only [List.cons_append, List.nil_append]
    rw [pVal]
    norm_num [stripPfx]
  | .bool false, r, F, hb, hF => by
    rw [show stringifyV (.bool false) = [102, 97, 108, 115, 101] from rfl] at hF ⊢
    simp only [List.length_cons, List.length_nil] at hF
    obtain ⟨g, rfl⟩ : ∃ g, F = g + 1 := ⟨F - 1, by omega⟩
    simp only [List.cons_append, List.nil_append]
    rw [pVal]
    norm_num [stripPfx]
  | .num n, r, F, hb, hF => by
    rw [show stringifyV (.num n) = intDec n from rfl] at hF ⊢
    unfold intDec at hF ⊢
    by_cases hneg : n < 0
    · rw [if_pos hneg] at hF ⊢
      simp only [List.length_cons] at hF
      obtain ⟨g, rfl⟩ : ∃ g, F = g + 1 := ⟨F - 1, by omega⟩
      simp only [List.cons_append]
      rw [pVal]
      norm_num
      rw [pNum_rt _ _ hb]
      exact ⟨n.natAbs, rfl, by omega⟩
    · rw [if_neg hneg] at hF ⊢
      obtain ⟨d, ds, hd, hd1, hd2⟩ := natDec_head n.toNat
      rw [hd] at hF ⊢
      simp only [List.length_cons] at hF
      obtain ⟨g, rfl⟩ : ∃ g, F = g + 1 := ⟨F - 1, by omega⟩
      simp only [List.cons_append]
      rw [pVal]
      rw [if_neg (by omega : ¬ d = 110), if_neg (by omega : ¬ d = 116),
        if_neg (by omega : ¬ d = 102), if_neg (by omega : ¬ d = 34),
        if_neg (by omega : ¬ d = 91), if_neg (by omega : ¬ d = 123),
        if_neg (by omega : ¬ d = 45),
        if_pos (show isDigitCp d = true by simp [isDigitCp]; omega)]
      rw [show d :: (ds ++ r) = (d :: ds) ++ r from rfl, ← hd, pNum_rt _ _ hb]
      show Option.map (fun p => (JValue.num ((p.1 : Nat) : Int), p.2)) (some (n.toNat, r)) =
        some (JValue.num n, r)
      rw [show Option.map (fun p => (JValue.num ((p.1 : Nat) : Int), p.2)) (some (n.toNat, r)) =
        some (JValue.num ((n.toNat : Nat) : Int), r) from rfl]
      rw [show ((n.toNat : Nat) : Int) = n from by omega]
  | .str s, r, F, hb, hF => by
    rw [show stringifyV (.str s) = 34 :: (escStr s ++ [34]) from rfl] at hF ⊢
    simp only [List.length_cons, List.length_append, List.length_nil] at hF
    obtain ⟨g, rfl⟩ : ∃ g, F = g + 1 := ⟨F - 1, by omega⟩
    simp only [List.cons_append, List.append_assoc, List.singleton_append]
    rw [pVal]
    norm_num
    rw [pStr_rt s r g (by omega)]
  | .arr [], r, F, hb, hF => by
    rw [show stringifyV (.arr []) = [91, 93] from rfl] at hF ⊢
    simp only [List.length_cons, List.length_nil] at hF
    obtain ⟨g, rfl⟩ : ∃ g, F = g + 1 + 1 := ⟨F - 2, by omega⟩
    simp only [List.cons_append, List.nil_append]
    rw [pVal]
    norm_num
    rw [pArr]
    norm_num
  | .arr (v :: vs), r, F, hb, hF => by
    rw [show stringifyV (.arr (v :: vs)) =
        91 :: (stringifyV v ++ (stringifyElems vs ++ [93])) from rfl] at hF ⊢
    simp only [List.length_cons, List.length_append, List.length_nil] at hF
    obtain ⟨g, rfl⟩ : ∃ g, F = g + 1 + 1 := ⟨F - 2, by omega⟩
    simp only [List.cons_append, List.append_assoc, List.singleton_append]
    rw [pVal]
    norm_num
    obtain ⟨c, t, hct, hc93⟩ := stringify_head v
    have hlen : (stringifyV v).length = t.length + 1 := by rw [hct]; rfl
    rw [hct, List.cons_append, pArr, if_neg hc93, ← List.cons_append, ← hct]
    rw [pVal_rt v (stringifyElems vs ++ (93 :: r)) g (numBoundary_elems vs r) (by omega)]
    simp only [Option.some_bind]
    rw [pElems_rt vs r g (by omega)]
    rfl
  | .obj [], r, F, hb, hF => by
    rw [show stringifyV (.obj []) = [123, 125] from rfl] at hF ⊢
    simp only [List.length_cons, List.length_nil] at hF
    obtain ⟨g, rfl⟩ : ∃ g, F = g + 1 + 1 := ⟨F - 2, by omega⟩
    simp only [List.cons_append, List.nil_append]
    rw [pVal]
    norm_num
    rw [pObj]
    norm_num
  | .obj ((k, kv) :: fs), r, F, hb, hF => by
    rw [show stringifyV (.obj ((k, kv) :: fs)) =
        123 :: ((34 :: (escStr k ++ [34])) ++
          (58 :: (stringifyV kv ++ (stringifyFields fs ++ [125])))) from rfl] at hF ⊢
    simp only [List.length_cons, List.length_append, List.length_nil] at hF
    obtain ⟨g2, rfl⟩ : ∃ g2, F = g2 + 1 + 1 + 1 := ⟨F - 3, by omega⟩
    simp only [List.cons_append, List.append_assoc, List.singleton_append]
    rw [pVal]
    norm_num
    rw [pObj]
    norm_num
    rw [pStr_rt k _ (g2 + 1) (by omega)]
    simp only [Option.some_bind]
    rw [pColonVal]
    norm_num
    rw [pVal_rt kv (stringifyFields fs ++ (125 :: r)) g2 (numBoundary_fields fs r) (by omega)]
    simp only [Option.some_bind]
    rw [pFields_rt fs r (g2 + 1) (by omega)]
    rfl

theorem pElems_rt : ∀ (vs : List JValue) (r : List Nat) (F : Nat),
    (stringifyElems vs).length + 1 ≤ F →
    pElems F (stringifyElems vs ++ (93 :: r)) = some (vs, r)
  | [], r, F, hF => by
    rw [show stringifyElems [] = [] from rfl] at hF ⊢
    simp only [List.length_nil] at hF
    obtain ⟨g, rfl⟩ : ∃ g, F = g + 1 := ⟨F - 1, by omega⟩
    simp only [List.nil_append]
    rw [pElems]
    norm_num
  | v :: vs, r, F, hF => by
    rw [show stringifyElems (v :: vs) = 44 :: (stringifyV v ++ stringifyElems vs) from rfl]
      at hF ⊢
    simp only [List.length_cons, List.length_append] at hF
    obtain ⟨g, rfl⟩ : ∃ g, F = g + 1 := ⟨F - 1, by omega⟩
    simp only [List.cons_append, List.append_assoc]
    rw [pElems]
    norm_num
    obtain ⟨c, t, hct, hc93⟩ := stringify_head v
    have hlen : (stringifyV v).length = t.length + 1 := by rw [hct]; rfl
    rw [pVal_rt v (stringifyElems vs ++ (93 :: r)) g (numBoundary_elems vs r) (by omega)]
    simp only [Option.some_bind]
    rw [pElems_rt vs r g (by omega)]
    rfl

theorem pFields_rt : ∀ (fs : List (List Nat × JValue)) (r : List Nat) (F : Nat),
    (stringifyFields fs).length + 1 ≤ F →
    pFields F (stringifyFields fs ++ (125 :: r)) = some (fs, r)
  | [], r, F, hF => by
    rw [show stringifyFields [] = [] from rfl] at hF ⊢
    simp only [List.length_nil] at hF
    obtain ⟨g, rfl⟩ : ∃ g, F = g + 1 := ⟨F - 1, by omega⟩
    simp only [List.nil_append]
    rw [pFields]
    norm_num
  | (k, kv) :: fs, r, F, hF => by
    rw [show stringifyFields ((k, kv) :: fs) =
        44 :: ((34 :: (escStr k ++ [34])) ++ (58 :: (stringifyV kv ++ stringifyFields fs)))
      from rfl] at hF ⊢
    simp only [List.length_cons, List.length_append, List.length_nil] at hF
    obtain ⟨g2, rfl⟩ : ∃ g2, F = g2 + 1 + 1 := ⟨F - 2, by omega⟩
    simp only [List.cons_append, List.append_assoc, List.singleton_append]
    rw [pFields]
    norm_num
    rw [pQKey]
    norm_num
    rw [pStr_rt k _ g2 (by omega)]
    simp only [Option.some_bind]
    rw [pColonVal]
    norm_num
    rw [pVal_rt kv (stringifyFields fs ++ (125 :: r)) g2 (numBoundary_fields fs r) (by omega)]
    simp only [Option.some_bind]
    rw [pFields_rt fs r (g2 + 1) (by omega)]
    rfl

end

/-- `JSON.parse ∘ JSON.stringify` is the identity on the modelled JSON value
universe. -/
theorem jsonParse_stringify (v : JValue) : jsonParse (stringifyV v) = some v := by
  rw [jsonParse]
  have h := pVal_rt v [] ((stringifyV v).length + 1) rfl (by omega)
  rw [List.append_nil] at h
  rw [h]

/-! ## Well-formed values (all code points valid) -/

mutual

/-- Every string inside the value consists of valid code points (true of any
value produced by a JavaScript program). -/
def jvalWF : JValue → Bool
  | .null => true
  | .bool _ => true
  | .num _ => true
  | .str s => s.all cpOK
  | .arr es => jvalWFElems es
  | .obj fs => jvalWFFields fs

def jvalWFElems : List JValue → Bool
  | [] => true
  | v :: vs => jvalWF v && jvalWFElems vs

def jvalWFFields : List (List Nat × JValue) → Bool
  | [] => true
  | (k, v) :: fs => k.all cpOK && jvalWF v && jvalWFFields fs

end

theorem all_cpOK_of_digits (ds : List Nat) (h : ds.all isDigitCp = true) :
    ds.all cpOK = true := by
  rw [List.all_eq_true] at h ⊢
  intro x hx
  have := h x hx
  simp only [isDigitCp, decide_eq_true_eq] at this
  simp only [cpOK, decide_eq_true_eq]
  omega

theorem intDec_all_cpOK (n : Int) : (intDec n).all cpOK = true := by
  unfold intDec
  by_cases hneg : n < 0
  · rw [if_pos hneg]
    simp only [List.all_cons, Bool.and_eq_true]
    exact ⟨by simp [cpOK], all_cpOK_of_digits _ (natDec_all_digits _)⟩
  · rw [if_neg hneg]
    exact all_cpOK_of_digits _ (natDec_all_digits _)

theorem escChar_all_cpOK (c : Nat) (h : cpOK c = true) :
    (escChar c).all cpOK = true := by
  unfold escChar
  by_cases h34 : c = 34
  · rw [if_pos h34]; rfl
  · rw [if_neg h34]
    by_cases h92 : c = 92
    · rw [if_pos h92]; rfl
    · rw [if_neg h92]
      by_cases h8 : c = 8
      · rw [if_pos h8]; rfl
      · rw [if_neg h8]
        by_cases h9 : c = 9
        · rw [if_pos h9]; rfl
        · rw [if_neg h9]
          by_cases h10 : c = 10
          · rw [if_pos h10]; rfl
          · rw [if_neg h10]
            by_cases h12 : c = 12
            · rw [if_pos h12]; rfl
            · rw [if_neg h12]
              by_cases h13 : c = 13
              · rw [if_pos h13]; rfl
              · rw [if_neg h13]
                by_cases hctl : c < 32
                · rw [if_pos hctl]
                  simp only [List.all_cons, List.all_nil, Bool.and_eq_true, cpOK, hexDig]
                  refine ⟨by simp, by simp, by simp, by simp, ?_, ?_, by simp⟩ <;>
                    · split <;> simp <;> omega
                · rw [if_neg hctl]
                  simp [h]

theorem escStr_all_cpOK (s : List Nat) (h : s.all cpOK = true) :
    (escStr s).all cpOK = true := by
  induction s with
  | nil => rfl
  | cons c cs ih =>
    simp only [List.all_cons, Bool.and_eq_true] at h
    have h1 := escChar_all_cpOK c h.1
    have h2 := ih h.2
    simp only [escStr, List.flatMap_cons, List.all_append, Bool.and_eq_true]
    exact ⟨h1, by simpa [escStr] using h2⟩

theorem quoteStr_all_cpOK (s : List Nat) (h : s.all cpOK = true) :
    (quoteStr s).all cpOK = true := by
  simp only [quoteStr, List.all_cons, List.all_append, Bool.and_eq_true]
  exact ⟨by simp [cpOK], escStr_all_cpOK s h, by simp [cpOK]⟩

mutual

theorem stringify_all_cpOK : ∀ (v : JValue), jvalWF v = true →
    (stringifyV v).all cpOK = true
  | .null, _ => rfl
  | .bool true, _ => rfl
  | .bool false, _ => rfl
  | .num n, _ => intDec_all_cpOK n
  | .str s, h => quoteStr_all_cpOK s (by simpa [jvalWF] using h)
  | .arr [], _ => rfl
  | .arr (v :: vs), h => by
    rw [show jvalWF (.arr (v :: vs)) = (jvalWF v && jvalWFElems vs) from rfl] at h
    simp only [Bool.and_eq_true] at h
    rw [show stringifyV (.arr (v :: vs)) =
        91 :: (stringifyV v ++ (stringifyElems vs ++ [93])) from rfl]
    simp only [List.all_cons, List.all_append, Bool.and_eq_true]
    exact ⟨by simp [cpOK], stringify_all_cpOK v h.1, stringifyElems_all_cpOK vs h.2,
      by simp [cpOK]⟩
  | .obj [], _ => rfl
  | .obj ((k, kv) :: fs), h => by
    rw [show jvalWF (.obj ((k, kv) :: fs)) =
        (k.all cpOK && jvalWF kv && jvalWFFields fs) from rfl] at h
    simp only [Bool.and_eq_true] at h
    rw [show stringifyV (.obj ((k, kv) :: fs)) =
        123 :: (quoteStr k ++ (58 :: (stringifyV kv ++ (stringifyFields fs ++ [125]))))
      from rfl]
    simp only [List.all_cons, List.all_append, Bool.and_eq_true]
    exact ⟨by simp [cpOK], quoteStr_all_cpOK k h.1.1, by simp [cpOK],
      stringify_all_cpOK kv h.1.2, stringifyFields_all_cpOK fs h.2, by simp [cpOK]⟩

theorem stringifyElems_all_cpOK : ∀ (vs : List JValue), jvalWFElems vs = true →
    (stringifyElems vs).all cpOK = true
  | [], _ => rfl
  | v :: vs, h => by
    rw [show jvalWFElems (v :: vs) = (jvalWF v && jvalWFElems vs) from rfl] at h
    simp only [Bool.and_eq_true] at h
    rw [show stringifyElems (v :: vs) = 44 :: (stringifyV v ++ stringifyElems vs) from rfl]
    simp only [List.all_cons, List.all_append, Bool.and_eq_true]
    exact ⟨by simp [cpOK], stringify_all_cpOK v h.1, stringifyElems_all_cpOK vs h.2⟩

theorem stringifyFields_all_cpOK : ∀ (fs : List (List Nat × JValue)),
    jvalWFFields fs = true → (stringifyFields fs).all cpOK = true
  | [], _ => rfl
  | (k, kv) :: fs, h => by
    rw [show jvalWFFields ((k, kv) :: fs) =
        (k.all cpOK && jvalWF kv && jvalWFFields fs) from rfl] at h
    simp only [Bool.and_eq_true] at h
    rw [show stringifyFields ((k, kv) :: fs) =
        44 :: (quoteStr k ++ (58 :: (stringifyV kv ++ stringifyFields fs))) from rfl]
    simp only [List.all_cons, List.all_append, Bool.and_eq_true]
    exact ⟨by simp [cpOK], quoteStr_all_cpOK k h.1.1, by simp [cpOK],
      stringify_all_cpOK kv h.1.2, stringifyFields_all_cpOK fs h.2⟩

end

/-! ## Frame codec (`serializeBody` / `serialize` / `deserializeBody` /
`deserialize` in ipc.ts) -/

/-- A JavaScript body value, in the classification order of `serializeBody`:
`undefined`, string, `Buffer`, anything else (JSON-serializable). -/
inductive Body where
  | jsUndefined
  | str (s : List Nat)
  | buf (b : List Nat)
  | obj (v : JValue)

/-- `serializeBody(body)`: classify the body and return `{ buffer, type }`
(`BodyType` tags: 0 Undefined, 1 String, 2 Buffer, 3 Object). -/
def serializeBody : Body → List Nat × Nat
  | .jsUndefined => ([], 0)
  | .str s => (utf8Encode s, 1)
  | .buf b => (b, 2)
  | .obj v => (utf8Encode (stringifyV v), 3)

/-- `buf.writeUInt32BE(n, 0)` for a 4-byte buffer.  Node throws a
`RangeError` for `n ≥ 2^32`; theorems about `serialize` therefore assume the
header length is below `2^32`. -/
def writeUInt32BE (n : Nat) : List Nat :=
  [n / 2 ^ 24 % 256, n / 2 ^ 16 % 256, n / 2 ^ 8 % 256, n % 256]

/-- `serialize(header, body)`: length-prefixed
`JSON.stringify([header, bodyType])` followed by the body bytes.  Note the
header JSON is the two-element array `[header, bodyType]`. -/
def serialize (header : JValue) (body : Body) : List Nat :=
  writeUInt32BE (utf8Encode (stringifyV (.arr [header, .num ((serializeBody body).2 : Int)]))).length ++
    (utf8Encode (stringifyV (.arr [header, .num ((serializeBody body).2 : Int)])) ++
      (serializeBody body).1)

/-- `buffer.readUInt32BE(0)`; only evaluated after the 4-byte length check. -/
def readUInt32BE : List Nat → Nat
  | b0 :: b1 :: b2 :: b3 :: _ => ((b0 * 256 + b1) * 256 + b2) * 256 + b3
  | _ => 0

/-- `deserializeBody(bodyBuffer, bodyType)`.  The `switch` has no default
case: an unrecognized tag falls through and the function returns
`undefined`. -/
def deserializeBody (bodyBuffer : List Nat) (tag : Option JValue) : Except Unit Body :=
  match tag with
  | some (.num 0) => .ok .jsUndefined
  | some (.num 1) =>
    match utf8Decode bodyBuffer with
    | some s => .ok (.str s)
    | none => .error ()
  | some (.num 2) => .ok (.buf bodyBuffer)
  | some (.num 3) =>
    match utf8Decode bodyBuffer with
    | some s =>
      match jsonParse s with
      | some v => .ok (.obj v)
      | none => .error ()
    | none => .error ()
  | _ => .ok .jsUndefined

/-- `deserialize(buffer)`: read the big-endian length, slice the header JSON
and the body, `JSON.parse` the header, destructure `[header, bodyType]` and
rematerialize the body.  A thrown exception (`readUInt32BE` out of range,
`JSON.parse` failure, destructuring a non-iterable) is `.error ()`.
Two corners are simplified: `buffer.toString()` repairs invalid UTF-8 with
U+FFFD instead of failing, and destructuring a top-level JSON *string*
would succeed characterwise; neither is reachable from the claims. -/
def deserialize (buffer : List Nat) : Except Unit (Option JValue × Body) :=
  if buffer.length < 4 then .error ()
  else
    match (utf8Decode ((buffer.drop 4).take (readUInt32BE buffer))).bind jsonParse with
    | some (.arr elems) =>
      match deserializeBody ((buffer.drop 4).drop (readUInt32BE buffer)) (elems.get? 1) with
      | .ok b => .ok (elems.get? 0, b)
      | .error e => .error e
    | _ => .error ()

/-- Well-formedness of a body value. -/
def bodyWF : Body → Bool
  | .jsUndefined => true
  | .str s => s.all cpOK
  | .buf _ => true
  | .obj v => jvalWF v

theorem length_writeUInt32BE (n : Nat) : (writeUInt32BE n).length = 4 := rfl

theorem read_write_u32 (n : Nat) (h : n < 2 ^ 32) (rest : List Nat) :
    readUInt32BE (writeUInt32BE n ++ rest) = n := by
  simp only [writeUInt32BE, List.cons_append, List.nil_append, readUInt32BE]
  omega

theorem jvalWF_header (H : JValue) (t : Int) (hH : jvalWF H = true) :
    jvalWF (.arr [H, .num t]) = true := by
  rw [show jvalWF (.arr [H, .num t]) = (jvalWF H && (true && true)) from rfl, hH]
  rfl

/-- Deserializing a well-formed serialized frame recovers the header and
hands the body buffer and tag to `deserializeBody`. -/
theorem deserialize_frame (H : JValue) (tagI : Int) (bodyB : List Nat)
    (hH : jvalWF H = true)
    (hlen : (utf8Encode (stringifyV (.arr [H, .num tagI]))).length < 2 ^ 32) :
    deserialize (writeUInt32BE (utf8Encode (stringifyV (.arr [H, .num tagI]))).length ++
        (utf8Encode (stringifyV (.arr [H, .num tagI])) ++ bodyB)) =
      match deserializeBody bodyB (some (.num tagI)) with
      | .ok b => .ok (some H, b)
      | .error e => .error e := by
  set hdrB := utf8Encode (stringifyV (.arr [H, .num tagI])) with hhdrB
  have hwlen : (writeUInt32BE hdrB.length).length = 4 := rfl
  have htotal : ¬ ((writeUInt32BE hdrB.length ++ (hdrB ++ bodyB)).length < 4) := by
    simp only [List.length_append, hwlen]
    omega
  have hread : readUInt32BE (writeUInt32BE hdrB.length ++ (hdrB ++ bodyB)) = hdrB.length :=
    read_write_u32 _ hlen _
  have hdrop : (writeUInt32BE hdrB.length ++ (hdrB ++ bodyB)).drop 4 = hdrB ++ bodyB := by
    rw [← hwlen, List.drop_left]
  have hdec : utf8Decode hdrB = some (stringifyV (.arr [H, .num tagI])) := by
    rw [hhdrB]
    exact utf8_roundtrip _ (stringify_all_cpOK _ (jvalWF_header H tagI hH))
  rw [deserialize, if_neg htotal, hread, hdrop, List.take_left, List.drop_left, hdec,
    Option.some_bind, jsonParse_stringify]
  cases hdb : deserializeBody bodyB (some (JValue.num tagI)) with
  | ok b => simp [hdb]
  | error e => simp [hdb]

/-- **C1.** Round-trip identity of the frame codec: for every header value
`H` and every body value `V` (undefined, string, buffer or structured),
`deserialize (serialize H V)` yields `H` and `V` back, `V` in its original
body-type class (`Body` preserves the class by construction). -/
theorem deserialize_serialize (H : JValue) (V : Body)
    (hH : jvalWF H = true) (hV : bodyWF V = true)
    (hlen : (utf8Encode (stringifyV (.arr [H, .num ((serializeBody V).2 : Int)]))).length <
      2 ^ 32) :
    deserialize (serialize H V) = .ok (some H, V) := by
  cases V with
  | jsUndefined =>
    rw [serialize, deserialize_frame H _ _ hH hlen]
    rfl
  | str s =>
    rw [serialize, deserialize_frame H _ _ hH hlen]
    have hs : utf8Decode (utf8Encode s) = some s :=
      utf8_roundtrip s (by simpa [bodyWF] using hV)
    rw [show (serializeBody (.str s)).1 = utf8Encode s from rfl]
    rw [show deserializeBody (utf8Encode s) (some (.num ((serializeBody (.str s)).2 : Int))) =
        match utf8Decode (utf8Encode s) with
        | some t => Except.ok (.str t)
        | none => Except.error () from rfl]
    rw [hs]
  | buf b =>
    rw [serialize, deserialize_frame H _ _ hH hlen]
    rfl
  | obj v =>
    rw [serialize, deserialize_frame H _ _ hH hlen]
    have hwf : jvalWF v = true := by simpa [bodyWF] using hV
    have hs : utf8Decode (utf8Encode (stringifyV v)) = some (stringifyV v) :=
      utf8_roundtrip _ (stringify_all_cpOK v hwf)
    rw [show (serializeBody (.obj v)).1 = utf8Encode (stringifyV v) from rfl]
    rw [show deserializeBody (utf8Encode (stringifyV v))
          (some (.num ((serializeBody (.obj v)).2 : Int))) =
        match utf8Decode (utf8Encode (stringifyV v)) with
        | some t =>
          match jsonParse t with
          | some w => Except.ok (.obj w)
          | none => Except.error ()
        | none => Except.error () from rfl]
    rw [hs]
    simp [jsonParse_stringify]

/-! ## Header extraction and concrete frame shapes (C2) -/

/-- The header JSON bytes of a frame: slice `[4, 4+len)` per the length
prefix. -/
def headerBytesOf (frame : List Nat) : List Nat :=
  (frame.drop 4).take (readUInt32BE frame)

/-- The header JSON text of a frame. -/
def headerTextOf (frame : List Nat) : Option (List Nat) :=
  utf8Decode (headerBytesOf frame)

/-- The frame sent by `ChannelClient.sendRequest` for a `Promise` request:
`serialize([100, id, channelName, name], arg)`. -/
def promiseRequestFrame (id : Nat) (ch nm : List Nat) (arg : Body) : List Nat :=
  serialize (.arr [.num 100, .num (id : Int), .str ch, .str nm]) arg

/-- The frame sent by `ChannelServer.sendResponse` for `Initialize`:
`serialize([200])`. -/
def initRespFrame : List Nat := serialize (.arr [.num 200]) .jsUndefined

theorem headerTextOf_serialize (H : JValue) (V : Body) (hH : jvalWF H = true)
    (hlen : (utf8Encode (stringifyV (.arr [H, .num ((serializeBody V).2 : Int)]))).length <
      2 ^ 32) :
    headerTextOf (serialize H V) =
      some (stringifyV (.arr [H, .num ((serializeBody V).2 : Int)])) := by
  set hdrB := utf8Encode (stringifyV (.arr [H, .num ((serializeBody V).2 : Int)])) with hhdrB
  have h4 : (writeUInt32BE hdrB.length).length = 4 := rfl
  have hdrop : (writeUInt32BE hdrB.length ++ (hdrB ++ (serializeBody V).1)).drop 4 =
      hdrB ++ (serializeBody V).1 := by
    rw [← h4, List.drop_left]
  rw [headerTextOf, headerBytesOf, serialize, ← hhdrB, read_write_u32 _ hlen, hdrop,
    List.take_left, hhdrB]
  exact utf8_roundtrip _ (stringify_all_cpOK _ (jvalWF_header H _ hH))

/-- Witness for C1 at a concrete header and body (non-ASCII string body). -/
theorem deserialize_serialize_witness :
    deserialize (serialize (JValue.arr [JValue.num 200]) (Body.str (lit "héllo"))) =
      .ok (some (JValue.arr [JValue.num 200]), Body.str (lit "héllo")) :=
  deserialize_serialize _ _ (by decide) (by decide) (by decide)

/-- **C2 counterexample.** The claim says an `Initialize` response
serializes with header JSON exactly the flat array `[200, 0]`.  In the code
`serialize` emits `JSON.stringify([header, bodyType])`, so the header JSON
of the Initialize frame is the nested text `[[200],0]`, not `[200,0]`. -/
theorem c2_counterexample :
    headerTextOf initRespFrame = some (lit "[[200],0]") ∧
      lit "[[200],0]" ≠ lit "[200,0]" := by
  exact ⟨rfl, by decide⟩

/-- **C2 (amended).** The header JSON of every serialized frame is the
two-element array `[H, tag]` whose last element is the body-type tag and
whose first element is the engine's header array `H`: a Promise request
with id `id`, channel `ch`, command `nm` and body tag `t` has header JSON
`[[100, id, ch, nm], t]`, and an Initialize response has header JSON
`[[200], 0]`. -/
theorem c2_header_shape (id : Nat) (ch nm : List Nat) (arg : Body)
    (hch : ch.all cpOK = true) (hnm : nm.all cpOK = true)
    (hlen : (utf8Encode (stringifyV (.arr [.arr [.num 100, .num (id : Int), .str ch, .str nm],
      .num ((serializeBody arg).2 : Int)]))).length < 2 ^ 32) :
    headerTextOf (promiseRequestFrame id ch nm arg) =
      some (stringifyV (.arr [.arr [.num 100, .num (id : Int), .str ch, .str nm],
        .num ((serializeBody arg).2 : Int)])) ∧
    headerTextOf initRespFrame = some (stringifyV (.arr [.arr [.num 200], .num 0])) := by
  constructor
  · exact headerTextOf_serialize _ _ (by simp [jvalWF, jvalWFElems, hch, hnm]) hlen
  · rfl

/-- Witness for the amended C2 at a concrete request. -/
theorem c2_header_shape_witness :
    headerTextOf (promiseRequestFrame 7 (lit "chan") (lit "cmd") (Body.str (lit "hi"))) =
      some (stringifyV (.arr [.arr [.num 100, .num 7, .str (lit "chan"), .str (lit "cmd")],
        .num 1])) ∧
    headerTextOf initRespFrame = some (stringifyV (.arr [.arr [.num 200], .num 0])) :=
  c2_header_shape 7 (lit "chan") (lit "cmd") (Body.str (lit "hi"))
    (by decide) (by decide) (by decide)

/-! ## Association-list helpers (JavaScript object used as a map) -/

/-- `delete obj[k]` — removes every binding for the key. -/
def aremove {κ β : Type} [DecidableEq κ] : List (κ × β) → κ → List (κ × β)
  | [], _ => []
  | p :: rest, k => if p.1 = k then aremove rest k else p :: aremove rest k

/-- `obj[k] = v`. -/
def aset {κ β : Type} [DecidableEq κ] (l : List (κ × β)) (k : κ) (v : β) : List (κ × β) :=
  (k, v) :: aremove l k

/-- `obj[k]` (`undefined` is `none`). -/
def alookup {κ β : Type} [DecidableEq κ] : List (κ × β) → κ → Option β
  | [], _ => none
  | p :: rest, k => if p.1 = k then some p.2 else alookup rest k

theorem alookup_aremove {κ β : Type} [DecidableEq κ] (l : List (κ × β)) (k j : κ) :
    alookup (aremove l k) j = if j = k then none else alookup l j := by
  induction l with
  | nil => simp [aremove, alookup]
  | cons p rest ih =>
    rw [aremove]
    split
    · next hp =>
      rw [ih]
      by_cases hj : j = k
      · rw [if_pos hj, if_pos hj]
      · rw [if_neg hj, if_neg hj, alookup,
          if_neg (fun hpj => hj ((hp.symm.trans hpj).symm))]
    · next hp =>
      rw [alookup]
      by_cases hpj : p.1 = j
      · rw [if_pos hpj]
        have hj : ¬ j = k := fun hjk => hp (hpj.trans hjk)
        rw [if_neg hj, alookup, if_pos hpj]
      · rw [if_neg hpj, ih]
        by_cases hj : j = k
        · rw [if_pos hj, if_pos hj]
        · rw [if_neg hj, if_neg hj, alookup, if_neg hpj]

theorem alookup_aset {κ β : Type} [DecidableEq κ] (l : List (κ × β)) (k j : κ) (v : β) :
    alookup (aset l k v) j = if j = k then some v else alookup l j := by
  rw [aset, alookup]
  by_cases hj : j = k
  · rw [if_pos hj.symm, if_pos hj]
  · rw [if_neg (fun he => hj he.symm), if_neg hj, alookup_aremove, if_neg hj]

/-! ## Channel-server engine (`ChannelServer` in ipc.ts)

The engine is modelled as a state machine.  Incoming decoded request frames,
settlements of the promises returned by `channel.call`, and emissions of the
events returned by `channel.listen` are the events; the frames passed to
`sendResponse` are the outputs.  A channel is identified by an opaque token;
`channels` maps registered names to tokens, `active` is the
`activeRequests` map of cancel handles. -/

/-- A decoded request frame (`IRawRequest`). -/
inductive RawReq where
  | promise (id : Nat) (ch nm : List Nat) (arg : Body)
  | promiseCancel (id : Nat)
  | eventListen (id : Nat) (ch nm : List Nat) (arg : Body)
  | eventDispose (id : Nat)

/-- A response frame handed to `sendResponse` (`IRawResponse`).  A
`PromiseError` body carries `{message, name, stack}` with the stack as an
optional list of lines. -/
inductive SrvOut where
  | init
  | promiseSuccess (id : Nat) (data : Body)
  | promiseError (id : Nat) (message : List Nat) (name : List Nat)
      (stack : Option (List (List Nat)))
  | promiseErrorObj (id : Nat) (data : Body)
  | eventFire (id : Nat) (data : Body)

/-- The cancel handle stored in `activeRequests[id]`:
`pend` — a promise call in flight (`toDisposable(() => requestPromise.cancel())`);
`done` — the handle registered after the call already settled synchronously
(cancelling it is a no-op);
`listen` — the unsubscribe handle of an event subscription. -/
inductive SrvEntry where
  | pend
  | done
  | listen
deriving DecidableEq

structure ServerState where
  channels : List (List Nat × Nat)
  active : List (Nat × SrvEntry)

/-- How the promise returned by `channel.call` settles. -/
inductive SCompletion where
  | success (v : Body)
  | errE (message name : List Nat) (stack : Option (List Nat))
  | errV (v : Body)

/-- An event observed by the server engine. -/
inductive SrvEvent where
  | req (r : RawReq)
  | register (name : List Nat) (tok : Nat)
  | complete (id : Nat) (o : SCompletion)
  | fire (id : Nat) (v : Body)

/-- `s.split('\n')`. -/
def splitNlAux : List Nat → List Nat → List (List Nat)
  | [], acc => [acc.reverse]
  | c :: r, acc => if c = 10 then acc.reverse :: splitNlAux r [] else splitNlAux r (c :: acc)

def splitNl (s : List Nat) : List (List Nat) := splitNlAux s []

/-- The message of the `TypeError` thrown by calling `call` on an undefined
channel; the exact runtime text (and its stack) is environment-specific and
abstracted to fixed values — no claim inspects them. -/
def typeErrMessage : List Nat := lit "channel.call is not a function"

def typeErrName : List Nat := lit "TypeError"

/-- `data.stack ? (data.stack.split ? data.stack.split('\n') : data.stack) : void 0`:
an absent or empty — falsy — stack becomes `undefined`, a string stack is
split into lines. -/
def stackLines : Option (List Nat) → Option (List (List Nat))
  | none => none
  | some s => if s = [] then none else some (splitNl s)

/-- The terminal response for a settled call (`onPromise`, lines 439-456):
success data, or `{message, name, stack-split-into-lines}` for an `Error`,
or the raw value for any other rejection. -/
def terminalOf (id : Nat) : SCompletion → SrvOut
  | .success v => .promiseSuccess id v
  | .errE m n st => .promiseError id m n (stackLines st)
  | .errV v => .promiseErrorObj id v

/-- One step of the channel-server engine.  `.error ()` models a synchronous
exception escaping the handler (only `onEventListen` on an unknown channel);
every throw point precedes any state mutation or send.

Modelled from the spec: the cancellation behaviour of `TPromise`
(`vs/base/common/winjs.base`, not part of the sources) — §4.C.3 "after
cancellation it will not emit a terminal response for that id even if one
later arrives" — is modelled by the `complete` event emitting only while the
id is still registered as a pending call; `disposeActiveRequest` deletes the
entry, and cancelling an already-settled promise is a no-op. -/
def serverStepE : ServerState → SrvEvent → Except Unit (ServerState × List SrvOut)
  | s, .register name tok => .ok ({ s with channels := aset s.channels name tok }, [])
  | s, .req (.promise id ch _ _) =>
    match alookup s.channels ch with
    | none =>
      -- `channel.call` throws a TypeError, caught and wrapped with
      -- `TPromise.wrapError`: the rejection path answers synchronously with
      -- a PromiseError, and the cancel handle is registered afterwards.
      .ok ({ s with active := aset s.active id .done },
        [.promiseError id typeErrMessage typeErrName none])
    | some _ => .ok ({ s with active := aset s.active id .pend }, [])
  | s, .req (.promiseCancel id) =>
    .ok ({ s with active := aremove s.active id }, [])
  | s, .req (.eventDispose id) =>
    .ok ({ s with active := aremove s.active id }, [])
  | s, .req (.eventListen id ch _ _) =>
    match alookup s.channels ch with
    | none => .error ()  -- `channel.listen` on undefined throws; there is no guard
    | some _ => .ok ({ s with active := aset s.active id .listen }, [])
  | s, .complete id o =>
    match alookup s.active id with
    | some .pend => .ok ({ s with active := aremove s.active id }, [terminalOf id o])
    | _ => .ok (s, [])
  | s, .fire id v =>
    match alookup s.active id with
    | some .listen => .ok (s, [.eventFire id v])
    | _ => .ok (s, [])

/-- Total step: a thrown handler leaves the engine state unchanged (verified
per case: all throw points precede mutations) and produces no output; the
exception propagates to the transport layer, not to the engine. -/
def serverStep (s : ServerState) (e : SrvEvent) : ServerState × List SrvOut :=
  match serverStepE s e with
  | .ok r => r
  | .error _ => (s, [])

def runServer : ServerState → List SrvEvent → ServerState × List SrvOut
  | s, [] => (s, [])
  | s, e :: es =>
    let r1 := serverStep s e
    let r2 := runServer r1.1 es
    (r2.1, r1.2 ++ r2.2)

/-- `new ChannelServer(protocol)`: subscribe to the protocol and immediately
`sendResponse({ type: Initialize })`. -/
def channelServerInit : ServerState × List SrvOut := (⟨[], []⟩, [.init])

/-- All frames a connection's server engine ever emits: the constructor's
output followed by the outputs of every processed event. -/
def serverTrace (evs : List SrvEvent) : List SrvOut :=
  channelServerInit.2 ++ (runServer channelServerInit.1 evs).2

def isInit : SrvOut → Bool
  | .init => true
  | _ => false

theorem serverStepE_no_init (s : ServerState) (e : SrvEvent) (r : ServerState × List SrvOut)
    (h : serverStepE s e = .ok r) : r.2.all (fun o => !(isInit o)) = true := by
  cases e with
  | register name tok =>
    rw [serverStepE] at h
    cases h
    rfl
  | req rq =>
    cases rq with
    | promise id ch nm arg =>
      rw [serverStepE] at h
      cases hl : alookup s.channels ch <;> rw [hl] at h <;> cases h <;> rfl
    | promiseCancel id =>
      rw [serverStepE] at h
      cases h
      rfl
    | eventListen id ch nm arg =>
      rw [serverStepE] at h
      cases hl : alookup s.channels ch <;> rw [hl] at h
      · cases h
      · cases h
        rfl
    | eventDispose id =>
      rw [serverStepE] at h
      cases h
      rfl
  | complete id o =>
    rw [serverStepE] at h
    cases hl : alookup s.active id <;> rw [hl] at h
    · cases h
      rfl
    · rename_i entry
      cases entry with
      | pend =>
        cases h
        cases o <;> rfl
      | done =>
        cases h
        rfl
      | listen =>
        cases h
        rfl
  | fire id v =>
    rw [serverStepE] at h
    cases hl : alookup s.active id <;> rw [hl] at h
    · cases h
      rfl
    · rename_i entry
      cases entry with
      | pend =>
        cases h
        rfl
      | done =>
        cases h
        rfl
      | listen =>
        cases h
        rfl

theorem serverStep_no_init (s : ServerState) (e : SrvEvent) :
    (serverStep s e).2.all (fun o => !(isInit o)) = true := by
  rw [serverStep]
  cases h : serverStepE s e with
  | ok r => exact serverStepE_no_init s e r h
  | error u => rfl

theorem runServer_no_init (s : ServerState) (evs : List SrvEvent) :
    ((runServer s evs).2).all (fun o => !(isInit o)) = true := by
  induction evs generalizing s with
  | nil => rfl
  | cons e es ih =>
    rw [runServer]
    simp only [List.all_append, Bool.and_eq_true]
    exact ⟨serverStep_no_init s e, ih _⟩

/-- **C3.** A connection's server engine emits exactly one `Initialize`
frame, before any other response frame: its whole emitted trace is
`Initialize` followed by frames none of which is an `Initialize`. -/
theorem c3_initialize_first (evs : List SrvEvent) :
    ∃ rest, serverTrace evs = SrvOut.init :: rest ∧
      rest.all (fun o => !(isInit o)) = true :=
  ⟨(runServer channelServerInit.1 evs).2, rfl, runServer_no_init _ _⟩

/-- Terminal responses (PromiseSuccess, PromiseError, PromiseErrorObj) for a
given request id. -/
def isTerminalFor (id : Nat) : SrvOut → Bool
  | .promiseSuccess i _ => i == id
  | .promiseError i _ _ _ => i == id
  | .promiseErrorObj i _ => i == id
  | _ => false

/-- A new `Promise` request frame reusing the given id. -/
def isPromiseReqFor (id : Nat) : SrvEvent → Bool
  | .req (.promise i _ _ _) => i == id
  | _ => false

/-- No pending-call cancel handle for the id. -/
def notPend : Option SrvEntry → Bool
  | some .pend => false
  | _ => true

theorem notPend_step (s : ServerState) (e : SrvEvent) (id : Nat)
    (h : notPend (alookup s.active id) = true) (hf : isPromiseReqFor id e = false) :
    notPend (alookup (serverStep s e).1.active id) = true ∧
      (serverStep s e).2.all (fun o => !(isTerminalFor id o)) = true := by
  cases e with
  | register name tok => exact ⟨h, rfl⟩
  | req rq =>
    cases rq with
    | promise i ch nm arg =>
      have hne : ¬ id = i := by
        rw [isPromiseReqFor] at hf
        simp only [beq_eq_false_iff_ne, ne_eq] at hf
        exact fun he => hf he.symm
      rw [serverStep, serverStepE]
      cases hl : alookup s.channels ch
      · refine ⟨?_, ?_⟩
        · show notPend (alookup (aset s.active i SrvEntry.done) id) = true
          rw [alookup_aset, if_neg hne]
          exact h
        · show (!(isTerminalFor id (.promiseError i typeErrMessage typeErrName none))
            && true) = true
          rw [isTerminalFor]
          simp only [Bool.and_true, Bool.not_eq_true', beq_eq_false_iff_ne, ne_eq]
          exact fun he => hne he.symm
      · refine ⟨?_, rfl⟩
        show notPend (alookup (aset s.active i SrvEntry.pend) id) = true
        rw [alookup_aset, if_neg hne]
        exact h
    | promiseCancel i =>
      refine ⟨?_, rfl⟩
      show notPend (alookup (aremove s.active i) id) = true
      rw [alookup_aremove]
      by_cases hi : id = i
      · rw [if_pos hi]; rfl
      · rw [if_neg hi]; exact h
    | eventDispose i =>
      refine ⟨?_, rfl⟩
      show notPend (alookup (aremove s.active i) id) = true
      rw [alookup_aremove]
      by_cases hi : id = i
      · rw [if_pos hi]; rfl
      · rw [if_neg hi]; exact h
    | eventListen i ch nm arg =>
      rw [serverStep, serverStepE]
      cases hl : alookup s.channels ch
      · exact ⟨h, rfl⟩
      · refine ⟨?_, rfl⟩
        show notPend (alookup (aset s.active i SrvEntry.listen) id) = true
        rw [alookup_aset]
        by_cases hi : id = i
        · rw [if_pos hi]; rfl
        · rw [if_neg hi]; exact h
  | complete i o =>
    rw [serverStep, serverStepE]
    cases hl : alookup s.active i with
    | none => exact ⟨h, rfl⟩
    | some entry =>
      cases entry with
      | pend =>
        have hne : ¬ id = i := by
          intro he
          rw [he, hl] at h
          exact absurd h (by decide)
        refine ⟨?_, ?_⟩
        · show notPend (alookup (aremove s.active i) id) = true
          rw [alookup_aremove, if_neg hne]
          exact h
        · show (!(isTerminalFor id (terminalOf i o)) && true) = true
          have hterm : isTerminalFor id (terminalOf i o) = false := by
            have hii : (i == id) = false := by
              simp only [beq_eq_false_iff_ne, ne_eq]
              exact fun he => hne he.symm
            cases o with
            | success v => rw [terminalOf, isTerminalFor, hii]
            | errE m n st => rw [terminalOf, isTerminalFor, hii]
            | errV v => rw [terminalOf, isTerminalFor, hii]
          rw [hterm]
          rfl
      | done => exact ⟨h, rfl⟩
      | listen => exact ⟨h, rfl⟩
  | fire i v =>
    rw [serverStep, serverStepE]
    cases hl : alookup s.active i with
    | none => exact ⟨h, rfl⟩
    | some entry =>
      cases entry with
      | pend => exact ⟨h, rfl⟩
      | done => exact ⟨h, rfl⟩
      | listen => exact ⟨h, rfl⟩

theorem runServer_no_terminal (id : Nat) (evs : List SrvEvent) (s : ServerState)
    (h : notPend (alookup s.active id) = true)
    (hf : evs.all (fun e => !(isPromiseReqFor id e)) = true) :
    ((runServer s evs).2).all (fun o => !(isTerminalFor id o)) = true := by
  induction evs generalizing s with
  | nil => rfl
  | cons e es ih =>
    simp only [List.all_cons, Bool.and_eq_true, Bool.not_eq_true'] at hf
    obtain ⟨hstep, hrest⟩ := notPend_step s e id h hf.1
    rw [runServer]
    simp only [List.all_append, Bool.and_eq_true]
    refine ⟨hrest, ih _ hstep ?_⟩
    simp only [List.all_eq_true, Bool.not_eq_true'] at hf ⊢
    exact hf.2

/-- **C5.** After the server processes a `PromiseCancel` for an id, it never
emits a terminal response (PromiseSuccess, PromiseError or PromiseErrorObj)
for that id across any later events — even if the underlying call completes
or rejects — as long as the id is not reused by a new `Promise` request. -/
theorem c5_cancel_suppresses (s : ServerState) (id : Nat) (evs : List SrvEvent)
    (hf : evs.all (fun e => !(isPromiseReqFor id e)) = true) :
    ((runServer (serverStep s (.req (.promiseCancel id))).1 evs).2).all
      (fun o => !(isTerminalFor id o)) = true := by
  apply runServer_no_terminal id evs _ _ hf
  show notPend (alookup (aremove s.active id) id) = true
  rw [alookup_aremove, if_pos rfl]
  rfl

/-- Witness for C5: a registered pending call is cancelled, then the
underlying call completes successfully; no terminal response is emitted. -/
theorem c5_cancel_suppresses_witness :
    ((runServer (serverStep ⟨[(lit "c", 0)], [(7, SrvEntry.pend)]⟩
        (.req (.promiseCancel 7))).1
      [.complete 7 (.success (.str (lit "late")))]).2).all
      (fun o => !(isTerminalFor 7 o)) = true :=
  c5_cancel_suppresses ⟨[(lit "c", 0)], [(7, SrvEntry.pend)]⟩ 7 _ (by decide)

/-- **C10.** An `EventListen` frame whose channel is not registered makes
`onEventListen` throw synchronously — there is no guard around the channel
lookup — so the handler performs no state change (no response frame for the
id, no cancel handle); by contrast a `Promise` frame for the same unknown
channel is caught and answered with a `PromiseError` response for that id. -/
theorem c10_unknown_channel (s : ServerState) (id : Nat) (ch nm : List Nat) (arg : Body)
    (h : alookup s.channels ch = none) :
    serverStepE s (.req (.eventListen id ch nm arg)) = .error () ∧
    serverStep s (.req (.eventListen id ch nm arg)) = (s, []) ∧
    serverStepE s (.req (.promise id ch nm arg)) =
      .ok ({ s with active := aset s.active id .done },
        [.promiseError id typeErrMessage typeErrName none]) := by
  refine ⟨?_, ?_, ?_⟩
  · rw [serverStepE, h]
  · rw [serverStep, serverStepE, h]
  · rw [serverStepE, h]

/-- Witness for C10 on an engine with no registered channels. -/
theorem c10_unknown_channel_witness :
    serverStepE ⟨[], []⟩ (.req (.eventListen 0 (lit "nope") (lit "ev") .jsUndefined)) =
      .error () ∧
    serverStep ⟨[], []⟩ (.req (.eventListen 0 (lit "nope") (lit "ev") .jsUndefined)) =
      (⟨[], []⟩, []) ∧
    serverStepE ⟨[], []⟩ (.req (.promise 0 (lit "nope") (lit "ev") .jsUndefined)) =
      .ok (⟨[], aset [] 0 .done⟩, [.promiseError 0 typeErrMessage typeErrName none]) :=
  c10_unknown_channel ⟨[], []⟩ 0 (lit "nope") (lit "ev") .jsUndefined rfl

/-! ## Channel-client engine (`ChannelClient` in ipc.ts)

Scope: the promise request path (`requestPromise`, `bufferRequest`,
`doRequest`, `onResponse`); event subscriptions (`requestEvent`) do not
interact with the claims settled on this machine.  Outputs are the decoded
request frames handed to `sendRequest`. -/

/-- A decoded response frame (`IRawResponse`), body already rematerialized. -/
inductive RawResp where
  | init
  | promiseSuccess (id : Nat) (data : Body)
  | promiseError (id : Nat) (data : Body)
  | promiseErrorObj (id : Nat) (data : Body)
  | eventFire (id : Nat) (data : Body)

/-- The error object materialized by the `PromiseError` handler in
`doRequest`: `new Error(response.data.message)` (the argument is coerced to
a string), then `name` and `stack` are assigned verbatim from the
transmitted data (`none` is JavaScript `undefined`). -/
structure MErr where
  message : List Nat
  name : Option JValue
  stack : Option JValue

/-- How the future returned by `requestPromise` settles. -/
inductive ClOutcome where
  | resolved (v : Body)
  | rejectedErr (e : MErr)
  | rejectedVal (v : Body)
  | cancelled

/-- A request sitting in `bufferedRequests`. -/
structure BufReq where
  id : Nat
  ch : List Nat
  nm : List Nat
  arg : Body

structure ClientState where
  idle : Bool
  lastRequestId : Nat
  buffered : List BufReq
  handlers : List Nat
  settled : List (Nat × ClOutcome)

inductive ClEvent where
  | call (ch nm : List Nat) (arg : Body)
  | cancel (id : Nat)
  | recv (r : RawResp)

/-- Property lookup on a JSON object (`undefined` is `none`). -/
def jsGet : JValue → List Nat → Option JValue
  | .obj fs, k => alookup fs k
  | _, _ => none

/-- Property lookup on a rematerialized body.  Access on a string or buffer
yields `undefined`; access on `undefined` throws, which is not modelled
(unreachable: the server engine always sends an object body with
PromiseError). -/
def jsField : Body → List Nat → Option JValue
  | .obj v, k => jsGet v k
  | _, _ => none

/-- `String(x)` as used by the `Error` constructor (`new Error(undefined)`
has message `""`).  Coercion of arrays and objects is not modelled (no
claim exercises it). -/
def jsToString : Option JValue → List Nat
  | none => []
  | some (.str s) => s
  | some (.num n) => intDec n
  | some (.bool true) => lit "true"
  | some (.bool false) => lit "false"
  | some .null => lit "null"
  | some (.arr _) => []
  | some (.obj _) => lit "[object Object]"

/-- The PromiseError handler of `doRequest` (lines 638-644):
`new Error(data.message)`, then `error.stack = data.stack` and
`error.name = data.name`, both verbatim. -/
def materializeError (data : Body) : MErr :=
  { message := jsToString (jsField data (lit "message"))
    name := jsField data (lit "name")
    stack := jsField data (lit "stack") }

def removeId : List Nat → Nat → List Nat
  | [], _ => []
  | i :: rest, id => if i = id then removeId rest id else i :: removeId rest id

def removeBuf : List BufReq → Nat → List BufReq
  | [], _ => []
  | b :: rest, id => if b.id = id then removeBuf rest id else b :: removeBuf rest id

def bufferedIds (s : ClientState) : List Nat := s.buffered.map (fun b => b.id)

def isSettled (s : ClientState) (id : Nat) : Bool := (alookup s.settled id).isSome

/-- Settle the future for `id`.  Modelled from the spec: resolving,
rejecting or cancelling an already-settled `TPromise`
(`vs/base/common/winjs.base`, not part of the sources) is a no-op. -/
def settle (s : ClientState) (id : Nat) (o : ClOutcome) : ClientState :=
  if isSettled s id then s else { s with settled := aset s.settled id o }

/-- One step of the channel-client engine.

Modelled from the spec: `TPromise` cancellation
(`vs/base/common/winjs.base`, not part of the sources) — cancelling the
future returned by `requestPromise` runs the registered canceller
(`bufferRequest`'s while still buffered, `doRequest`'s once sent) and the
future settles as **cancelled** (§4.D). -/
def clientStep : ClientState → ClEvent → ClientState × List RawReq
  | s, .call ch nm arg =>
    if s.idle then
      -- doRequest: register the response handler and send the frame
      ({ s with
          lastRequestId := s.lastRequestId + 1
          handlers := s.lastRequestId :: s.handlers },
        [.promise s.lastRequestId ch nm arg])
    else
      -- bufferRequest: queue the request with its flush hook
      ({ s with
          lastRequestId := s.lastRequestId + 1
          buffered := s.buffered ++ [⟨s.lastRequestId, ch, nm, arg⟩] }, [])
  | s, .cancel id =>
    if isSettled s id then (s, [])
    else if id ∈ bufferedIds s then
      -- bufferRequest canceller, state still Uninitialized: remove the
      -- request from the queue and send nothing
      (settle { s with buffered := removeBuf s.buffered id } id .cancelled, [])
    else if id ∈ s.handlers then
      -- doRequest canceller: send PromiseCancel (the handler stays
      -- registered; a late response resolves a settled promise, a no-op)
      (settle s id .cancelled, [.promiseCancel id])
    else (s, [])
  | s, .recv .init =>
    -- onResponse: state ← Idle, flush the buffered requests in insertion
    -- order (each flush is a doRequest), clear the buffer
    ({ s with
        idle := true
        buffered := []
        handlers := (s.buffered.map (fun b => b.id)) ++ s.handlers },
      s.buffered.map (fun b => .promise b.id b.ch b.nm b.arg))
  | s, .recv (.promiseSuccess id d) =>
    if id ∈ s.handlers then
      (settle { s with handlers := removeId s.handlers id } id (.resolved d), [])
    else (s, [])
  | s, .recv (.promiseError id d) =>
    if id ∈ s.handlers then
      (settle { s with handlers := removeId s.handlers id } id
        (.rejectedErr (materializeError d)), [])
    else (s, [])
  | s, .recv (.promiseErrorObj id d) =>
    if id ∈ s.handlers then
      (settle { s with handlers := removeId s.handlers id } id (.rejectedVal d), [])
    else (s, [])
  | s, .recv (.eventFire _ _) => (s, [])

def runClient : ClientState → List ClEvent → ClientState × List RawReq
  | s, [] => (s, [])
  | s, e :: es =>
    let r1 := clientStep s e
    let r2 := runClient r1.1 es
    (r2.1, r1.2 ++ r2.2)

/-- `new ChannelClient(protocol)`: Uninitialized, no requests. -/
def clientNew : ClientState := ⟨false, 0, [], [], []⟩

/-! ### C4: buffering preserves order -/

structure CallSpec where
  ch : List Nat
  nm : List Nat
  arg : Body

def enumFrom {α : Type} : Nat → List α → List (Nat × α)
  | _, [] => []
  | n, x :: xs => (n, x) :: enumFrom (n + 1) xs

theorem runClient_calls (calls : List CallSpec) : ∀ (s : ClientState),
    s.idle = false →
    runClient s (calls.map (fun c => ClEvent.call c.ch c.nm c.arg)) =
      ({ s with
          lastRequestId := s.lastRequestId + calls.length
          buffered := s.buffered ++
            (enumFrom s.lastRequestId calls).map (fun p => ⟨p.1, p.2.ch, p.2.nm, p.2.arg⟩) },
        []) := by
  induction calls with
  | nil =>
    intro s hs
    simp [runClient, enumFrom]
  | cons c cs ih =>
    intro s hs
    simp only [List.map_cons, runClient, clientStep, hs, Bool.false_eq_true, if_false]
    rw [ih _ rfl]
    simp only [enumFrom, List.map_cons, List.length_cons, List.append_assoc,
      List.cons_append, List.nil_append, List.append_nil]
    have harith : s.lastRequestId + 1 + cs.length = s.lastRequestId + (cs.length + 1) := by
      omega
    rw [harith]

theorem runClient_append (s : ClientState) (es1 es2 : List ClEvent) :
    runClient s (es1 ++ es2) =
      ((runClient (runClient s es1).1 es2).1,
        (runClient s es1).2 ++ (runClient (runClient s es1).1 es2).2) := by
  induction es1 generalizing s with
  | nil => simp [runClient]
  | cons e es ih =>
    simp only [List.cons_append, runClient, List.append_eq]
    rw [ih]
    simp [List.append_assoc]

/-- **C4.** N calls issued while the client is Uninitialized, none
cancelled: upon receiving the Initialize frame the client sends exactly the
N Promise request frames, on the wire, in the order the calls were issued
(ids assigned in issue order starting from 0); nothing is sent before. -/
theorem c4_buffered_calls_flush_in_order (calls : List CallSpec) :
    (runClient clientNew (calls.map (fun c => ClEvent.call c.ch c.nm c.arg) ++
        [ClEvent.recv .init])).2 =
      (enumFrom 0 calls).map (fun p => RawReq.promise p.1 p.2.ch p.2.nm p.2.arg) := by
  have h := runClient_calls calls clientNew rfl
  rw [runClient_append, h]
  simp only [runClient, clientStep, List.nil_append, List.append_nil, List.map_map]
  rw [show clientNew.buffered = [] from rfl, show clientNew.lastRequestId = 0 from rfl,
    List.nil_append, List.map_map]
  rfl

/-! ### C6: cancellation of a call -/

/-- A request frame carrying the given id. -/
def mentionsId (id : Nat) : RawReq → Bool
  | .promise i _ _ _ => i == id
  | .promiseCancel i => i == id
  | .eventListen i _ _ _ => i == id
  | .eventDispose i => i == id

/-- The id is referenced nowhere in the client (not buffered, no handler,
below the id counter): no frame for it can ever be produced again. -/
def idFree (s : ClientState) (id : Nat) : Bool :=
  decide (id ∉ bufferedIds s) && decide (id ∉ s.handlers) && decide (id < s.lastRequestId)

theorem idFree_parts {s : ClientState} {id : Nat} :
    idFree s id = true ↔
      (id ∉ bufferedIds s ∧ id ∉ s.handlers ∧ id < s.lastRequestId) := by
  simp [idFree, and_assoc]

theorem mem_removeId {j : Nat} : ∀ {l : List Nat} {id : Nat}, j ∈ removeId l id → j ∈ l := by
  intro l
  induction l with
  | nil => intro id h; exact absurd h (by simp [removeId])
  | cons i rest ih =>
    intro id h
    rw [removeId] at h
    by_cases hi : i = id
    · rw [if_pos hi] at h
      exact List.mem_cons_of_mem _ (ih h)
    · rw [if_neg hi] at h
      rcases List.mem_cons.mp h with h1 | h2
      · exact h1 ▸ List.mem_cons_self _ _
      · exact List.mem_cons_of_mem _ (ih h2)

theorem mem_removeBuf {b : BufReq} : ∀ {l : List BufReq} {id : Nat},
    b ∈ removeBuf l id → b ∈ l ∧ b.id ≠ id := by
  intro l
  induction l with
  | nil => intro id h; exact absurd h (by simp [removeBuf])
  | cons x rest ih =>
    intro id h
    rw [removeBuf] at h
    by_cases hx : x.id = id
    · rw [if_pos hx] at h
      obtain ⟨h1, h2⟩ := ih h
      exact ⟨List.mem_cons_of_mem _ h1, h2⟩
    · rw [if_neg hx] at h
      rcases List.mem_cons.mp h with h1 | h2
      · exact ⟨h1 ▸ List.mem_cons_self _ _, h1 ▸ hx⟩
      · obtain ⟨h1, h2⟩ := ih h2
        exact ⟨List.mem_cons_of_mem _ h1, h2⟩

theorem settle_fields (s : ClientState) (id : Nat) (o : ClOutcome) :
    (settle s id o).idle = s.idle ∧ (settle s id o).lastRequestId = s.lastRequestId ∧
      (settle s id o).buffered = s.buffered ∧ (settle s id o).handlers = s.handlers := by
  rw [settle]
  by_cases h : isSettled s id = true
  · rw [if_pos h]
    exact ⟨rfl, rfl, rfl, rfl⟩
  · rw [if_neg h]
    exact ⟨rfl, rfl, rfl, rfl⟩

theorem idFree_settle (s : ClientState) (id j : Nat) (o : ClOutcome)
    (h : idFree s j = true) : idFree (settle s id o) j = true := by
  obtain ⟨h1, h2, h3, h4⟩ := settle_fields s id o
  rw [idFree_parts] at h ⊢
  rw [bufferedIds, h3, h4, h2]
  exact h

theorem idFree_step (s : ClientState) (e : ClEvent) (id : Nat)
    (h : idFree s id = true) :
    idFree (clientStep s e).1 id = true ∧
      (clientStep s e).2.all (fun r => !(mentionsId id r)) = true := by
  rw [idFree_parts] at h
  obtain ⟨hb, hh, hlt⟩ := h
  cases e with
  | call ch nm arg =>
    rw [clientStep]
    by_cases hi : s.idle = true
    · rw [if_pos hi]
      refine ⟨idFree_parts.mpr ⟨hb, ?_, by simp; omega⟩, ?_⟩
      · intro hmem
        rcases List.mem_cons.mp hmem with h1 | h2
        · omega
        · exact hh h2
      · show (!(mentionsId id (.promise s.lastRequestId ch nm arg)) && true) = true
        rw [mentionsId]
        simp only [Bool.and_true, Bool.not_eq_true', beq_eq_false_iff_ne, ne_eq]
        omega
    · rw [if_neg hi]
      refine ⟨idFree_parts.mpr ⟨?_, hh, by simp; omega⟩, rfl⟩
      rw [bufferedIds]
      simp only [List.map_append, List.map_cons, List.map_nil, List.mem_append,
        List.mem_cons, List.not_mem_nil, or_false]
      rintro (h1 | h2)
      · exact hb (by rw [bufferedIds]; exact h1)
      · omega
  | cancel i =>
    rw [clientStep]
    by_cases hs : isSettled s i = true
    · rw [if_pos hs]
      exact ⟨idFree_parts.mpr ⟨hb, hh, hlt⟩, rfl⟩
    · rw [if_neg hs]
      by_cases hbuf : i ∈ bufferedIds s
      · rw [if_pos hbuf]
        refine ⟨idFree_settle _ _ _ _ (idFree_parts.mpr ⟨?_, hh, hlt⟩), rfl⟩
        rw [bufferedIds]
        intro hmem
        obtain ⟨b, hb1, hb2⟩ := List.mem_map.mp hmem
        obtain ⟨hb3, _⟩ := mem_removeBuf hb1
        exact hb (by rw [bufferedIds]; exact List.mem_map.mpr ⟨b, hb3, hb2⟩)
      · rw [if_neg hbuf]
        by_cases hhan : i ∈ s.handlers
        · rw [if_pos hhan]
          refine ⟨idFree_settle _ _ _ _ (idFree_parts.mpr ⟨hb, hh, hlt⟩), ?_⟩
          show (!(mentionsId id (.promiseCancel i)) && true) = true
          rw [mentionsId]
          simp only [Bool.and_true, Bool.not_eq_true', beq_eq_false_iff_ne, ne_eq]
          intro he
          exact hh (he ▸ hhan)
        · rw [if_neg hhan]
          exact ⟨idFree_parts.mpr ⟨hb, hh, hlt⟩, rfl⟩
  | recv r =>
    cases r with
    | init =>
      rw [clientStep]
      refine ⟨idFree_parts.mpr ⟨by simp [bufferedIds], ?_, hlt⟩, ?_⟩
      · simp only [List.mem_append]
        rintro (h1 | h2)
        · exact hb (by rw [bufferedIds]; exact h1)
        · exact hh h2
      · rw [List.all_eq_true]
        intro r hr
        obtain ⟨b, hb1, hb2⟩ := List.mem_map.mp hr
        rw [← hb2]
        show (!(mentionsId id (.promise b.id b.ch b.nm b.arg))) = true
        rw [mentionsId]
        simp only [Bool.not_eq_true', beq_eq_false_iff_ne, ne_eq]
        intro he
        exact hb (by rw [bufferedIds]; exact List.mem_map.mpr ⟨b, hb1, he⟩)
    | promiseSuccess i d =>
      rw [clientStep]
      by_cases hhan : i ∈ s.handlers
      · rw [if_pos hhan]
        refine ⟨idFree_settle _ _ _ _ (idFree_parts.mpr ⟨hb, ?_, hlt⟩), rfl⟩
        exact fun hmem => hh (mem_removeId hmem)
      · rw [if_neg hhan]
        exact ⟨idFree_parts.mpr ⟨hb, hh, hlt⟩, rfl⟩
    | promiseError i d =>
      rw [clientStep]
      by_cases hhan : i ∈ s.handlers
      · rw [if_pos hhan]
        refine ⟨idFree_settle _ _ _ _ (idFree_parts.mpr ⟨hb, ?_, hlt⟩), rfl⟩
        exact fun hmem => hh (mem_removeId hmem)
      · rw [if_neg hhan]
        exact ⟨idFree_parts.mpr ⟨hb, hh, hlt⟩, rfl⟩
    | promiseErrorObj i d =>
      rw [clientStep]
      by_cases hhan : i ∈ s.handlers
      · rw [if_pos hhan]
        refine ⟨idFree_settle _ _ _ _ (idFree_parts.mpr ⟨hb, ?_, hlt⟩), rfl⟩
        exact fun hmem => hh (mem_removeId hmem)
      · rw [if_neg hhan]
        exact ⟨idFree_parts.mpr ⟨hb, hh, hlt⟩, rfl⟩
    | eventFire i d =>
      rw [clientStep]
      exact ⟨idFree_parts.mpr ⟨hb, hh, hlt⟩, rfl⟩

theorem idFree_run (id : Nat) (evs : List ClEvent) (s : ClientState)
    (h : idFree s id = true) :
    ((runClient s evs).2).all (fun r => !(mentionsId id r)) = true := by
  induction evs generalizing s with
  | nil => rfl
  | cons e es ih =>
    obtain ⟨h1, h2⟩ := idFree_step s e id h
    rw [runClient]
    simp only [List.all_append, Bool.and_eq_true]
    exact ⟨h2, ih _ h1⟩

theorem not_mem_removeBuf_ids (l : List BufReq) (id : Nat) :
    id ∉ (removeBuf l id).map (fun b => b.id) := by
  intro hmem
  obtain ⟨b, hb1, hb2⟩ := List.mem_map.mp hmem
  exact absurd hb2 (mem_removeBuf hb1).2

/-- **C6.** Cancelling the future returned by a call: if the Promise frame
is still in the buffered queue, the request is removed from the queue, no
frame is sent, and no frame carrying that id is ever sent afterwards; if
the Promise frame had actually been sent (a response handler is
registered), exactly a `PromiseCancel` frame with that call's id is sent.
In either case the returned future settles as cancelled. -/
theorem c6_cancel (s : ClientState) (id : Nat) :
    (∀ (_ : id ∈ bufferedIds s) (_ : isSettled s id = false)
        (_ : id ∉ s.handlers) (_ : id < s.lastRequestId),
      (clientStep s (.cancel id)).2 = [] ∧
      id ∉ bufferedIds (clientStep s (.cancel id)).1 ∧
      alookup (clientStep s (.cancel id)).1.settled id = some .cancelled ∧
      ∀ evs, ((runClient (clientStep s (.cancel id)).1 evs).2).all
        (fun r => !(mentionsId id r)) = true) ∧
    (∀ (_ : id ∈ s.handlers) (_ : isSettled s id = false) (_ : id ∉ bufferedIds s),
      (clientStep s (.cancel id)).2 = [.promiseCancel id] ∧
      alookup (clientStep s (.cancel id)).1.settled id = some .cancelled) := by
  constructor
  · intro hb hs hh hlt
    rw [clientStep, if_neg (by simp [hs]), if_pos hb]
    refine ⟨rfl, ?_, ?_, ?_⟩
    · rw [bufferedIds, (settle_fields _ id ClOutcome.cancelled).2.2.1]
      exact not_mem_removeBuf_ids s.buffered id
    · rw [settle,
        if_neg (show ¬ (isSettled { s with buffered := removeBuf s.buffered id } id = true)
          from by simp [isSettled]; simpa [isSettled] using hs)]
      show alookup (aset s.settled id ClOutcome.cancelled) id = some ClOutcome.cancelled
      rw [alookup_aset, if_pos rfl]
    · intro evs
      apply idFree_run
      apply idFree_settle
      refine idFree_parts.mpr ⟨?_, hh, hlt⟩
      show id ∉ (removeBuf s.buffered id).map (fun b => b.id)
      exact not_mem_removeBuf_ids s.buffered id
  · intro hh hs hb
    rw [clientStep, if_neg (by simp [hs]), if_neg hb, if_pos hh]
    refine ⟨rfl, ?_⟩
    rw [settle, if_neg (by simp [hs])]
    show alookup (aset s.settled id ClOutcome.cancelled) id = some ClOutcome.cancelled
    rw [alookup_aset, if_pos rfl]

/-- A client with two buffered calls. -/
def c6BufferedState : ClientState :=
  (runClient clientNew [.call (lit "c") (lit "m") .jsUndefined,
    .call (lit "c") (lit "m2") .jsUndefined]).1

/-- A client with one sent call (flushed by Initialize). -/
def c6SentState : ClientState :=
  (runClient clientNew [.call (lit "c") (lit "m") .jsUndefined, .recv .init]).1

/-- Witness for C6: cancelling a still-buffered call sends nothing (now or
later) and settles cancelled; cancelling a sent call sends `PromiseCancel`
and settles cancelled. -/
theorem c6_cancel_witness :
    (clientStep c6BufferedState (.cancel 0)).2 = [] ∧
    0 ∉ bufferedIds (clientStep c6BufferedState (.cancel 0)).1 ∧
    alookup (clientStep c6BufferedState (.cancel 0)).1.settled 0 = some .cancelled ∧
    ((runClient (clientStep c6BufferedState (.cancel 0)).1 [ClEvent.recv .init]).2).all
      (fun r => !(mentionsId 0 r)) = true ∧
    (clientStep c6SentState (.cancel 0)).2 = [.promiseCancel 0] ∧
    alookup (clientStep c6SentState (.cancel 0)).1.settled 0 = some .cancelled := by
  have h1 := (c6_cancel c6BufferedState 0).1 (by decide) (by decide) (by decide) (by decide)
  have h2 := (c6_cancel c6SentState 0).2 (by decide) (by decide) (by decide)
  exact ⟨h1.1, h1.2.1, h1.2.2.1, h1.2.2.2 [ClEvent.recv .init], h2.1, h2.2⟩

/-! ### C8: PromiseError materialization -/

/-- A client with one sent call awaiting its response. -/
def c8State : ClientState :=
  (runClient clientNew [.call (lit "c") (lit "m") .jsUndefined, .recv .init]).1

/-- A transmitted PromiseError body whose stack is an array of two lines. -/
def c8Data : Body :=
  .obj (.obj [(lit "message", .str (lit "boom")), (lit "name", .str (lit "E")),
    (lit "stack", .arr [.str (lit "l1"), .str (lit "l2")])])

/-- **C8 counterexample.** The claim says an array-of-lines stack is joined
with newlines into a single string.  The handler assigns
`error.stack = response.data.stack` verbatim: the delivered stack is the
array `["l1", "l2"]`, which is not the string `"l1\nl2"`. -/
theorem c8_counterexample :
    alookup (clientStep c8State (.recv (.promiseError 0 c8Data))).1.settled 0 =
      some (.rejectedErr ⟨lit "boom", some (.str (lit "E")),
        some (.arr [.str (lit "l1"), .str (lit "l2")])⟩) ∧
    JValue.arr [.str (lit "l1"), .str (lit "l2")] ≠
      JValue.str (lit "l1" ++ (10 :: lit "l2")) := by
  constructor
  · rfl
  · intro h
    exact JValue.noConfusion h

/-- **C8 (amended).** For every PromiseError response delivered to a
registered handler, the rejection is an error object whose message and name
equal the transmitted ones and whose stack is the transmitted stack
assigned verbatim (an array of lines is delivered as that array, not
joined). -/
theorem c8_error_materialization (s : ClientState) (id : Nat) (v : JValue)
    (m : List Nat) (nv sv : JValue)
    (hh : id ∈ s.handlers) (hs : isSettled s id = false)
    (hm : jsGet v (lit "message") = some (.str m))
    (hn : jsGet v (lit "name") = some nv)
    (hst : jsGet v (lit "stack") = some sv) :
    alookup (clientStep s (.recv (.promiseError id (.obj v)))).1.settled id =
      some (.rejectedErr ⟨m, some nv, some sv⟩) := by
  rw [clientStep, if_pos hh]
  have hmat : materializeError (.obj v) = ⟨m, some nv, some sv⟩ := by
    rw [materializeError]
    show (⟨jsToString (jsGet v (lit "message")), jsGet v (lit "name"),
      jsGet v (lit "stack")⟩ : MErr) = _
    rw [hm, hn, hst]
    rfl
  rw [hmat, settle,
    if_neg (show ¬ (isSettled { s with handlers := removeId s.handlers id } id = true)
      from by simpa [isSettled] using hs)]
  show alookup (aset s.settled id _) id = _
  rw [alookup_aset, if_pos rfl]

/-- Witness for the amended C8 at a concrete state and error body. -/
theorem c8_error_materialization_witness :
    alookup (clientStep c8State (.recv (.promiseError 0 c8Data))).1.settled 0 =
      some (.rejectedErr ⟨lit "boom", some (.str (lit "E")),
        some (.arr [.str (lit "l1"), .str (lit "l2")])⟩) :=
  c8_error_materialization c8State 0
    (.obj [(lit "message", .str (lit "boom")), (lit "name", .str (lit "E")),
      (lit "stack", .arr [.str (lit "l1"), .str (lit "l2")])])
    (lit "boom") (.str (lit "E")) (.arr [.str (lit "l1"), .str (lit "l2")])
    (by decide) (by decide) rfl rfl rfl

/-! ### C7: malformed frames -/

/-- Extract a request/response id from a header slot.  The code does not
check the shape: a non-numeric id would be coerced to a JavaScript property
key, which is not modelled (unreachable for frames produced by the engines
and unused by the claims), so it is treated as a decode error here. -/
def headerIdOf : Option JValue → Except Unit Nat
  | some (.num n) => if n < 0 then .error () else .ok n.toNat
  | _ => .error ()

/-- Extract a channel or command name from a header slot (same caveat as
`headerIdOf`). -/
def headerStrOf : Option JValue → Except Unit (List Nat)
  | some (.str s) => .ok s
  | _ => .error ()

/-- `ChannelServer.onRawMessage` after `deserialize` (lines 480-499):
`type = header[0]` dispatches; an unrecognized tag returns without
dispatching (`.ok none` — the frame is dropped); indexing `undefined` or
`null` throws. -/
def parseRawRequest : Option JValue × Body → Except Unit (Option RawReq)
  | (none, _) => .error ()
  | (some h, body) =>
    match h with
    | .null => .error ()
    | .arr elems =>
      match elems.get? 0 with
      | some (.num 100) => do
        let id ← headerIdOf (elems.get? 1)
        let ch ← headerStrOf (elems.get? 2)
        let nm ← headerStrOf (elems.get? 3)
        .ok (some (.promise id ch nm body))
      | some (.num 101) => do
        let id ← headerIdOf (elems.get? 1)
        .ok (some (.promiseCancel id))
      | some (.num 102) => do
        let id ← headerIdOf (elems.get? 1)
        let ch ← headerStrOf (elems.get? 2)
        let nm ← headerStrOf (elems.get? 3)
        .ok (some (.eventListen id ch nm body))
      | some (.num 103) => do
        let id ← headerIdOf (elems.get? 1)
        .ok (some (.eventDispose id))
      | _ => .ok none
    | _ => .ok none

/-- `ChannelClient.onRawMessage` after `deserialize` (lines 690-710). -/
def parseRawResponse : Option JValue × Body → Except Unit (Option RawResp)
  | (none, _) => .error ()
  | (some h, body) =>
    match h with
    | .null => .error ()
    | .arr elems =>
      match elems.get? 0 with
      | some (.num 200) => .ok (some .init)
      | some (.num 201) => do
        let id ← headerIdOf (elems.get? 1)
        .ok (some (.promiseSuccess id body))
      | some (.num 202) => do
        let id ← headerIdOf (elems.get? 1)
        .ok (some (.promiseError id body))
      | some (.num 203) => do
        let id ← headerIdOf (elems.get? 1)
        .ok (some (.promiseErrorObj id body))
      | some (.num 204) => do
        let id ← headerIdOf (elems.get? 1)
        .ok (some (.eventFire id body))
      | _ => .ok none
    | _ => .ok none

/-- `ChannelServer.onRawMessage`: decode the frame and dispatch.  There is
no try/catch anywhere on this path: a decoding failure is an exception that
escapes the handler. -/
def serverOnRaw (s : ServerState) (bytes : List Nat) :
    Except Unit (ServerState × List SrvOut) :=
  match deserialize bytes with
  | .error e => .error e
  | .ok d =>
    match parseRawRequest d with
    | .error e => .error e
    | .ok none => .ok (s, [])
    | .ok (some r) => serverStepE s (.req r)

/-- `ChannelClient.onRawMessage`: decode the frame and dispatch. -/
def clientOnRaw (s : ClientState) (bytes : List Nat) :
    Except Unit (ClientState × List RawReq) :=
  match deserialize bytes with
  | .error e => .error e
  | .ok d =>
    match parseRawResponse d with
    | .error e => .error e
    | .ok none => .ok (s, [])
    | .ok (some r) => .ok (clientStep s (.recv r))

/-- A frame whose header announces a Promise request with body tag 3 but
whose body byte `x` does not parse as JSON. -/
def badTag3Frame : List Nat :=
  writeUInt32BE (lit "[[100,0,\"c\",\"n\"],3]").length ++
    (lit "[[100,0,\"c\",\"n\"],3]" ++ lit "x")

/-- The same malformed body on a response frame for the client engine. -/
def badTag3RespFrame : List Nat :=
  writeUInt32BE (lit "[[201,0],3]").length ++ (lit "[[201,0],3]" ++ lit "x")

/-- **C7 counterexample.** The claim says the engine drops a frame whose
decoding fails and continues.  On a tag-3 body that does not parse,
`JSON.parse` throws inside `deserialize` and the exception escapes
`onRawMessage` — for the server engine and the client engine alike — rather
than the frame being dropped by the engine. -/
theorem c7_counterexample :
    serverOnRaw ⟨[(lit "c", 0)], []⟩ badTag3Frame = .error () ∧
    clientOnRaw ⟨true, 1, [], [0], []⟩ badTag3RespFrame = .error () := by
  exact ⟨rfl, rfl⟩

/-- **C7 (amended).** A frame with an unrecognized outer type tag is
silently dropped and the engine continues unchanged; but when decoding
throws (unparsable header JSON, undefined/null header, or a tag-3 body that
does not parse as JSON), the exception escapes the engine's
`onRawMessage` handler uncaught — the handler performs no state change and
nothing is delivered to any channel, pending future or subscription, but
the engine itself does not drop the frame and continue. -/
theorem c7_decode_failures :
    (∀ (s : ServerState) (bytes : List Nat), deserialize bytes = .error () →
      serverOnRaw s bytes = .error ()) ∧
    (∀ (s : ServerState) (bytes : List Nat) (d : Option JValue × Body),
      deserialize bytes = .ok d → parseRawRequest d = .ok none →
      serverOnRaw s bytes = .ok (s, [])) ∧
    (∀ (s : ClientState) (bytes : List Nat), deserialize bytes = .error () →
      clientOnRaw s bytes = .error ()) ∧
    (∀ (s : ClientState) (bytes : List Nat) (d : Option JValue × Body),
      deserialize bytes = .ok d → parseRawResponse d = .ok none →
      clientOnRaw s bytes = .ok (s, [])) := by
  refine ⟨?_, ?_, ?_, ?_⟩
  · intro s bytes h
    rw [serverOnRaw, h]
  · intro s bytes d h1 h2
    rw [serverOnRaw, h1]
    show (match parseRawRequest d with
      | Except.error e => Except.error e
      | Except.ok none => Except.ok (s, [])
      | Except.ok (some r) => serverStepE s (SrvEvent.req r)) = Except.ok (s, [])
    rw [h2]
  · intro s bytes h
    rw [clientOnRaw, h]
  · intro s bytes d h1 h2
    rw [clientOnRaw, h1]
    show (match parseRawResponse d with
      | Except.error e => Except.error e
      | Except.ok none => Except.ok (s, [])
      | Except.ok (some r) => Except.ok (clientStep s (ClEvent.recv r))) =
        Except.ok (s, [])
    rw [h2]

/-- Witness for the amended C7: a frame too short to carry a length prefix
throws in both engines; a frame with unknown outer tag 999 is dropped and
both engines continue unchanged. -/
theorem c7_decode_failures_witness :
    serverOnRaw ⟨[], []⟩ (lit "ab") = .error () ∧
    serverOnRaw ⟨[], []⟩ (serialize (.arr [.num 999]) .jsUndefined) = .ok (⟨[], []⟩, []) ∧
    clientOnRaw clientNew (lit "ab") = .error () ∧
    clientOnRaw clientNew (serialize (.arr [.num 999]) .jsUndefined) = .ok (clientNew, []) :=
  ⟨c7_decode_failures.1 ⟨[], []⟩ (lit "ab") rfl,
    c7_decode_failures.2.1 ⟨[], []⟩ (serialize (.arr [.num 999]) .jsUndefined)
      (some (.arr [.num 999]), .jsUndefined) rfl rfl,
    c7_decode_failures.2.2.1 clientNew (lit "ab") rfl,
    c7_decode_failures.2.2.2 clientNew (serialize (.arr [.num 999]) .jsUndefined)
      (some (.arr [.num 999]), .jsUndefined) rfl rfl⟩

/-! ## Multi-client server (`IPCServer` in ipc.ts)

A connection is attached on a client-connect event; the engines are built
only when the connection's first (peer-identity) frame arrives, at which
point every currently offered channel is registered on the new
`ChannelServer`.  `registerChannel` mutates only the `IPCServer`'s own
channel map. -/

/-- The per-connection engines built in the `onFirstMessage` handler (the
`ChannelClient` holds no channel state relevant here beyond the peer id). -/
structure ConnEngines where
  clientId : List Nat
  server : ServerState

structure IPCState where
  channels : List (List Nat × Nat)
  pendingConns : List Nat
  conns : List (Nat × ConnEngines)

inductive IPCEvent where
  | connect (h : Nat)
  | firstMessage (h : Nat) (rawId : List Nat)
  | register (name : List Nat) (tok : Nat)
  | disconnect (h : Nat)

def ipcStep : IPCState → IPCEvent → IPCState
  | s, .connect h => { s with pendingConns := s.pendingConns ++ [h] }
  | s, .firstMessage h rid =>
    if h ∈ s.pendingConns then
      -- build a ChannelServer, register all *currently* offered channels on
      -- it, build a ChannelClient and store it under the peer id
      { s with
          pendingConns := removeId s.pendingConns h
          conns := aset s.conns h ⟨rid, ⟨s.channels, []⟩⟩ }
    else s
  | s, .register name tok =>
    -- `IPCServer.registerChannel` (lines 833-835): `this.channels[name] =
    -- channel` — only the server's own map is updated; the per-connection
    -- ChannelServer engines are not touched
    { s with channels := aset s.channels name tok }
  | s, .disconnect h => { s with conns := aremove s.conns h }

def ipcNew : IPCState := ⟨[], [], []⟩

def runIPC : IPCState → List IPCEvent → IPCState := List.foldl ipcStep

/-- Lookup of a channel in the channel map of the connection's server
engine. -/
def connChannelLookup (s : IPCState) (h : Nat) (name : List Nat) : Option Nat :=
  match alookup s.conns h with
  | some c => alookup c.server.channels name
  | none => none

/-- The state after one peer connected and then a channel was registered. -/
def c9State : IPCState :=
  runIPC ipcNew [.connect 0, .firstMessage 0 (lit "peerA"), .register (lit "foo") 5]

/-- **C9 counterexample.** The claim says registering a channel after a
connection exists updates the existing per-connection channel server
engines immediately.  After a peer connects and `foo` is registered, the
server's own map has `foo` but the existing connection's engine does not:
the channel is not callable on the existing connection. -/
theorem c9_counterexample :
    (alookup c9State.conns 0).isSome = true ∧
    alookup c9State.channels (lit "foo") = some 5 ∧
    connChannelLookup c9State 0 (lit "foo") = none := by
  exact ⟨rfl, rfl, rfl⟩

/-- **C9 (amended).** Registering a channel on the multi-client IPC server
leaves every existing per-connection channel server engine untouched (the
new channel is not callable on existing connections), and the channel is
available on connections whose engines are built afterwards. -/
theorem c9_register_future_only (s : IPCState) (name : List Nat) (tok : Nat)
    (h : Nat) (rid : List Nat) :
    (ipcStep s (.register name tok)).conns = s.conns ∧
    connChannelLookup
      (ipcStep (ipcStep (ipcStep s (.register name tok)) (.connect h))
        (.firstMessage h rid)) h name = some tok := by
  constructor
  · rfl
  · rw [ipcStep, ipcStep, ipcStep,
      if_pos (show h ∈ s.pendingConns ++ [h] from List.mem_append.mpr
        (Or.inr (List.mem_singleton.mpr rfl)))]
    rw [connChannelLookup]
    show (match alookup (aset s.conns h ⟨rid, ⟨aset s.channels name tok, []⟩⟩) h with
      | some c => alookup c.server.channels name
      | none => none) = some tok
    rw [alookup_aset, if_pos rfl]
    show alookup (aset s.channels name tok) name = some tok
    rw [alookup_aset, if_pos rfl]

end IpcModel
